import Mathlib

/-!
# Resilience layer of the notification platform

A shallow embedding of `api-gateway/circuit_breaker.go` (circuit breaker,
breaker registry, protected call wrapper) and of the delivery loop of
`push-service/consumer.go`, followed by theorems about them.

Modelling conventions.

* Go `int` is the 64-bit two's-complement integer: a value is an `Int` and
  `x++` is `wrapInt (x + 1)`.
* `time.Time` is an integer instant in nanoseconds counted from the zero
  `Time`; `time.Duration` is an integer number of nanoseconds. Every read of
  the clock (`time.Now()`, `time.Since`) takes the current instant as an
  explicit argument `now`, and `time.Since(t)` is `now - t` saturated at the
  smallest and largest `Duration`.
* A Go `error` is an `Option GoError`, `none` being `nil`.
* A `*CircuitBreaker` is an address into a `Heap` of breaker objects.
* `fmt.Printf` and `log.Printf` diagnostics are not part of the state.
-/

namespace Resilience

/-! ## Machine integers -/

/-- Smallest value of a Go `int`. -/
def minInt : Int := -9223372036854775808

/-- Largest value of a Go `int`. -/
def maxInt : Int := 9223372036854775807

/-- Reduction of a mathematical integer to the Go `int` it is stored as. -/
def wrapInt (x : Int) : Int :=
  (x + 9223372036854775808) % 18446744073709551616 - 9223372036854775808

/-- Values a Go `int` variable can hold. -/
def IsGoInt (x : Int) : Prop := minInt ≤ x ∧ x ≤ maxInt

instance (x : Int) : Decidable (IsGoInt x) := by
  unfold IsGoInt; infer_instance

/-! ## The clock -/

/-- The duration `time.Since(t)` read at instant `now`: `now - t`, replaced by
the largest `Duration` when it is above it and by the smallest when it is
below it, as `Time.Sub` does. -/
def Since (now t : Int) : Int :=
  if now - t > maxInt then maxInt
  else if now - t < minInt then minInt
  else now - t

/-! ## circuit_breaker.go -/

/-- The `CircuitState` constants `StateClosed`, `StateOpen`, `StateHalfOpen`. -/
inductive CircuitState
  | StateClosed
  | StateOpen
  | StateHalfOpen
deriving DecidableEq, Repr

/-- Method `CircuitState.String`. -/
def CircuitState.String : CircuitState → String
  | .StateClosed => "CLOSED"
  | .StateOpen => "OPEN"
  | .StateHalfOpen => "HALF_OPEN"

/-- Error values: the two package-level sentinels, compared by identity in
the source, and any other error value, identified by its message. -/
inductive GoError
  | ErrCircuitOpen
  | ErrTooManyRequests
  | other (msg : String)
deriving DecidableEq, Repr

/-- The fields of `struct CircuitBreaker` (the mutex is not state). -/
structure CircuitBreaker where
  maxFailures : Int
  resetTimeout : Int
  halfOpenMax : Int
  state : CircuitState
  failures : Int
  lastFailTime : Int
  successCount : Int
deriving DecidableEq, Repr

/-- Constructor `NewCircuitBreaker`: the fields not listed in the composite
literal take their zero value. -/
def NewCircuitBreaker (maxFailures : Int) (resetTimeout : Int) : CircuitBreaker :=
  { maxFailures := maxFailures
    resetTimeout := resetTimeout
    halfOpenMax := 3
    state := .StateClosed
    failures := 0
    lastFailTime := 0
    successCount := 0 }

/-- Method `beforeRequest`, the admission decision, at clock reading `now`. -/
def beforeRequest (cb : CircuitBreaker) (now : Int) : Option GoError × CircuitBreaker :=
  match cb.state with
  | .StateClosed => (none, cb)
  | .StateOpen =>
    if Since now cb.lastFailTime > cb.resetTimeout then
      (none, { cb with state := .StateHalfOpen, successCount := 0 })
    else
      (some .ErrCircuitOpen, cb)
  | .StateHalfOpen =>
    if cb.successCount ≥ cb.halfOpenMax then
      (some .ErrTooManyRequests, cb)
    else
      (none, cb)

/-- Method `onSuccess`. The `switch` has no case for `StateOpen`. -/
def onSuccess (cb : CircuitBreaker) : CircuitBreaker :=
  match cb.state with
  | .StateClosed => { cb with failures := 0 }
  | .StateHalfOpen =>
    let cb1 := { cb with successCount := wrapInt (cb.successCount + 1) }
    if cb1.successCount ≥ cb1.halfOpenMax then
      { cb1 with state := .StateClosed, failures := 0, successCount := 0 }
    else
      cb1
  | .StateOpen => cb

/-- Method `onFailure`, at clock reading `now`. The `switch` has no case for
`StateOpen`. -/
def onFailure (cb : CircuitBreaker) (now : Int) : CircuitBreaker :=
  let cb1 := { cb with failures := wrapInt (cb.failures + 1), lastFailTime := now }
  match cb1.state with
  | .StateClosed =>
    if cb1.failures ≥ cb1.maxFailures then { cb1 with state := .StateOpen } else cb1
  | .StateHalfOpen => { cb1 with state := .StateOpen, successCount := 0 }
  | .StateOpen => cb1

/-- Method `afterRequest`, at clock reading `now`. -/
def afterRequest (cb : CircuitBreaker) (err : Option GoError) (now : Int) : CircuitBreaker :=
  match err with
  | none => onSuccess cb
  | some _ => onFailure cb now

/-- Method `Execute`. The operation `fn` is a function of the world `σ` it
acts on; `now` is the clock at admission and `now2` the clock when the
outcome is recorded. -/
def Execute {σ : Type} (cb : CircuitBreaker) (fn : σ → Option GoError × σ) (w : σ)
    (now now2 : Int) : Option GoError × CircuitBreaker × σ :=
  match beforeRequest cb now with
  | (some err, cb1) => (some err, cb1, w)
  | (none, cb1) =>
    let r := fn w
    (r.1, afterRequest cb1 r.1 now2, r.2)

/-- Method `GetState`. -/
def GetState (cb : CircuitBreaker) : CircuitState := cb.state

/-! ## Recorded outcomes -/

/-- An outcome handed to `afterRequest` together with the clock at that call. -/
abbrev Outcome := Option GoError × Int

/-- The breaker after `afterRequest` has been called with each outcome in turn. -/
def recordAll (cb : CircuitBreaker) (os : List Outcome) : CircuitBreaker :=
  os.foldl (fun c o => afterRequest c o.1 o.2) cb

/-- Which outcomes of a sequence are failures (non-nil errors). -/
def failureFlags (os : List Outcome) : List Bool :=
  os.map (fun o => o.1.isSome)

/-- Length of the run of failures that ends a sequence of outcomes. -/
def trailingFailures (l : List Bool) : Nat :=
  l.foldl (fun n b => if b then n + 1 else 0) 0

/-- Wrapper that counts the invocations of an operation in the world it
acts on. -/
def counted {σ : Type} (fn : σ → Option GoError × σ) (w : σ × Nat) : Option GoError × (σ × Nat) :=
  ((fn w.1).1, ((fn w.1).2, w.2 + 1))

/-- Successive `beforeRequest` calls at the given clock readings: the answers
in order and the breaker they leave. -/
def pollAll : CircuitBreaker → List Int → List (Option GoError) × CircuitBreaker
  | cb, [] => ([], cb)
  | cb, t :: ts =>
    ((beforeRequest cb t).1 :: (pollAll (beforeRequest cb t).2 ts).1,
      (pollAll (beforeRequest cb t).2 ts).2)

/-- A call on a breaker: `beforeRequest` at a clock reading, or `afterRequest`
with an outcome at a clock reading. -/
inductive Call
  | before (now : Int)
  | after (err : Option GoError) (now : Int)
deriving DecidableEq, Repr

/-- The breaker after one call. -/
def applyCall (cb : CircuitBreaker) : Call → CircuitBreaker
  | .before now => (beforeRequest cb now).2
  | .after err now => afterRequest cb err now

/-- The breaker after a sequence of calls, made in any order. -/
def applyCalls (cb : CircuitBreaker) (cs : List Call) : CircuitBreaker :=
  cs.foldl applyCall cb

/-- The probe counter of a breaker: the limit is 3 and `successCount` stays
in `0, 1, 2`. -/
def ProbeInv (cb : CircuitBreaker) : Prop :=
  cb.halfOpenMax = 3 ∧ 0 ≤ cb.successCount ∧ cb.successCount < 3

instance (cb : CircuitBreaker) : Decidable (ProbeInv cb) := by
  unfold ProbeInv; infer_instance

/-- The failure counter of a breaker configured with `maxFailures = m`, after
at most `n` calls: `failures` is between 0 and `n`, below `m` when the state
is Closed and at least `m` otherwise. -/
def FailInv (m n : Int) (cb : CircuitBreaker) : Prop :=
  cb.maxFailures = m ∧ 0 ≤ cb.failures ∧ cb.failures ≤ n ∧
  (cb.state = .StateClosed → cb.failures < m) ∧
  (cb.state ≠ .StateClosed → m ≤ cb.failures)

instance (m n : Int) (cb : CircuitBreaker) : Decidable (FailInv m n cb) := by
  unfold FailInv; infer_instance

/-! ## The breaker registry -/

/-- The `*CircuitBreaker` objects allocated so far; an address is an index. -/
abbrev Heap := List CircuitBreaker

/-- Pointer dereference. Every address handed out by `GetBreaker` is
allocated; an address that is not reads as a zero-configured breaker. -/
def deref (h : Heap) (p : Nat) : CircuitBreaker :=
  h.getD p (NewCircuitBreaker 0 0)

/-- Assignment `m[k] = v` on a Go map held as an association list. -/
def mapAssign {α : Type} (m : List (String × α)) (k : String) (v : α) : List (String × α) :=
  (m.filter (fun e => e.1 != k)) ++ [(k, v)]

/-- The fields of `struct CircuitBreakerManager` (the mutex is not state):
`breakers` is the `map[string]*CircuitBreaker`. -/
structure CircuitBreakerManager where
  breakers : List (String × Nat)
deriving DecidableEq, Repr

/-- Constructor `NewCircuitBreakerManager`. -/
def NewCircuitBreakerManager : CircuitBreakerManager := { breakers := [] }

/-- The part of the process state the registry lives in: the breaker objects
and the package-level variable `circuitBreakerManager`. -/
structure World where
  heap : Heap
  circuitBreakerManager : CircuitBreakerManager
deriving DecidableEq, Repr

/-- Process state at start-up: `circuitBreakerManager = NewCircuitBreakerManager()`. -/
def World.init : World := { heap := [], circuitBreakerManager := NewCircuitBreakerManager }

/-- Method `GetBreaker` on the package-level manager, run without
interleaving: the lookup under the read lock, the second lookup under the
write lock, then construction and insertion. Returns the pointer. -/
def GetBreaker (r : World) (serviceName : String) (maxFailures : Int) (resetTimeout : Int) :
    Nat × World :=
  match r.circuitBreakerManager.breakers.lookup serviceName with
  | some breaker => (breaker, r)
  | none =>
    match r.circuitBreakerManager.breakers.lookup serviceName with
    | some breaker => (breaker, r)
    | none =>
      let breaker := r.heap.length
      (breaker,
        { heap := r.heap ++ [NewCircuitBreaker maxFailures resetTimeout]
          circuitBreakerManager :=
            { breakers := mapAssign r.circuitBreakerManager.breakers serviceName breaker } })

/-- A `GetBreaker` call: service name, `maxFailures`, `resetTimeout`. -/
abbrev BreakerRequest := String × Int × Int

/-- Successive `GetBreaker` calls: the pointers returned, in order, and the
process state they leave. -/
def getBreakers : World → List BreakerRequest → List Nat × World
  | r, [] => ([], r)
  | r, c :: cs =>
    ((GetBreaker r c.1 c.2.1 c.2.2).1 :: (getBreakers (GetBreaker r c.1 c.2.1 c.2.2).2 cs).1,
      (getBreakers (GetBreaker r c.1 c.2.1 c.2.2).2 cs).2)

/-- The requests of a sequence that are the first for their name, the names
in `seen` being taken already. -/
def firstRequests : List String → List BreakerRequest → List BreakerRequest
  | _, [] => []
  | seen, c :: cs =>
    if c.1 ∈ seen then firstRequests seen cs else c :: firstRequests (c.1 :: seen) cs

/-- The names registered in the manager's map. -/
def registeredNames (r : World) : List String :=
  r.circuitBreakerManager.breakers.map Prod.fst

/-- The duration constant `time.Second` in nanoseconds. -/
def Second : Int := 1000000000

/-- Function `CallServiceWithCircuitBreaker`. `Execute` runs on the object the
pointer designates and its updates are stored back at that address. -/
def CallServiceWithCircuitBreaker {σ : Type} (r : World) (serviceName : String)
    (fn : σ → Option GoError × σ) (w : σ) (now now2 : Int) : Option GoError × World × σ :=
  let g := GetBreaker r serviceName 5 (30 * Second)
  let e := Execute (deref g.2.heap g.1) fn w now now2
  let r2 : World := { g.2 with heap := g.2.heap.set g.1 e.2.1 }
  if e.1 = some .ErrCircuitOpen then
    (some (.other ("service " ++ serviceName ++ " is currently unavailable (circuit breaker open)")),
      r2, e.2.2)
  else if e.1 = some .ErrTooManyRequests then
    (some (.other ("service " ++ serviceName ++ " is recovering, please try again later")),
      r2, e.2.2)
  else
    (e.1, r2, e.2.2)

/-- Function `TrackServiceHealth`, at clock reading `now`. -/
def TrackServiceHealth (r : World) (serviceName : String) (err : Option GoError) (now : Int) :
    World :=
  let g := GetBreaker r serviceName 5 (30 * Second)
  match err with
  | some e => { g.2 with heap := g.2.heap.set g.1 (afterRequest (deref g.2.heap g.1) (some e) now) }
  | none => { g.2 with heap := g.2.heap.set g.1 (afterRequest (deref g.2.heap g.1) none now) }

/-! ## push-service/consumer.go -/

/-- Values an `amqp.Table` can hold (the field types of AMQP 0-9-1). -/
inductive AmqpValue
  | bool (b : Bool)
  | int16 (n : Int)
  | int32 (n : Int)
  | int64 (n : Int)
  | str (s : String)
  | bytes (b : List Nat)
  | nil
deriving DecidableEq, Repr

/-- An `amqp.Table`, a `map[string]interface{}`: `none` is the nil map. -/
abbrev Table := Option (List (String × AmqpValue))

/-- The fields of `struct NotificationMessage` (`Typ` is the field `Type`). -/
structure NotificationMessage where
  UserID : String
  Typ : String
  Title : String
  Message : String
  Token : String
deriving DecidableEq, Repr

/-- The fields of an `amqp.Delivery` the consumer reads. -/
structure Delivery where
  Body : String
  Headers : Table
deriving DecidableEq, Repr

/-- Function `getRetryCount`: the type assertion `.(int32)` succeeds only on
an `int32` value stored under the key. -/
def getRetryCount (headers : Table) : Int :=
  match headers with
  | none => 0
  | some m =>
    match m.lookup "x-retry-count" with
    | some (.int32 count) => count
    | _ => 0

/-- Function `sendPushNotification` as it stands in the source: it logs,
sleeps and returns `nil`. -/
def sendPushNotification (_notification : NotificationMessage) : Option GoError := none

/-- Calls the consumer makes on its collaborators, in the order made. -/
inductive Effect
  | SendPush (notification : NotificationMessage)
  | Ack (multiple : Bool)
  | Nack (multiple : Bool) (requeue : Bool)
deriving DecidableEq, Repr

/-- One pass of the `for d := range msgs` loop of `startConsumer`.
`unmarshal` stands for `json.Unmarshal` into a `NotificationMessage` and
`send` for the downstream call `sendPushNotification`, a fallible operation on
the world `σ`; the result lists the calls made. -/
def consumeOne {σ : Type} (unmarshal : String → Option NotificationMessage)
    (send : NotificationMessage → σ → Option GoError × σ) (d : Delivery) (w : σ) :
    List Effect × σ :=
  match unmarshal d.Body with
  | none => ([.Nack false false], w)
  | some notification =>
    let r := send notification w
    match r.1 with
    | some _ =>
      let retryCount := getRetryCount d.Headers
      if retryCount < 3 then
        ([.SendPush notification, .Nack false true], r.2)
      else
        ([.SendPush notification, .Nack false false], r.2)
    | none => ([.SendPush notification, .Ack false], r.2)

/-- The terminal dispositions among the calls made. -/
def dispositions (es : List Effect) : List Effect :=
  es.filter (fun e => match e with | .SendPush _ => false | _ => true)

/-- The downstream sends among the calls made. -/
def sends (es : List Effect) : List Effect :=
  es.filter (fun e => match e with | .SendPush _ => true | _ => false)

/-- The broker's side of a requeue: `Nack(requeue = true)` puts the delivery
back on the queue as it is, and the consumer, which never writes
`d.Headers`, receives it again with the same headers. The result is the calls
made over at most `attempts` receipts of the delivery. -/
def consumeWithRedelivery {σ : Type} (unmarshal : String → Option NotificationMessage)
    (send : NotificationMessage → σ → Option GoError × σ) :
    Nat → Delivery → σ → List (List Effect)
  | 0, _, _ => []
  | attempts + 1, d, w =>
    let r := consumeOne unmarshal send d w
    if Effect.Nack false true ∈ r.1 then
      r.1 :: consumeWithRedelivery unmarshal send attempts d r.2
    else
      [r.1]

theorem wrapInt_of_isGoInt {x : Int} (h : IsGoInt x) : wrapInt x = x := by
  unfold IsGoInt minInt maxInt at h
  unfold wrapInt
  omega

theorem wrapInt_succ {x : Int} (h0 : minInt ≤ x) (h1 : x < maxInt) : wrapInt (x + 1) = x + 1 := by
  unfold minInt at h0
  unfold maxInt at h1
  unfold wrapInt
  omega

theorem trailingFailures_concat (l : List Bool) (b : Bool) :
    trailingFailures (l ++ [b]) = if b then trailingFailures l + 1 else 0 := by
  simp [trailingFailures, List.foldl_append]

theorem concat_suffix_concat {α : Type} (a l : List α) (x y : α) :
    (a ++ [x]) <:+ (l ++ [y]) ↔ a <:+ l ∧ x = y := by
  rw [← List.reverse_prefix]
  simp only [List.reverse_append, List.reverse_cons, List.reverse_nil, List.nil_append,
    List.singleton_append]
  rw [List.cons_prefix_cons, List.reverse_prefix]
  tauto

/-- A run of `k` failures ends the sequence exactly when `k` is at most the
length of the trailing run. -/
theorem replicate_suffix_iff (l : List Bool) (k : Nat) :
    List.replicate k true <:+ l ↔ k ≤ trailingFailures l := by
  induction l using List.reverseRecOn generalizing k with
  | nil =>
    cases k with
    | zero => simp [trailingFailures]
    | succ k => simp [trailingFailures, List.replicate_succ]
  | append_singleton l b ih =>
    rw [trailingFailures_concat]
    cases k with
    | zero => simp
    | succ k =>
      rw [List.replicate_succ', concat_suffix_concat, ih]
      cases b <;> simp

/-! ## Closed to Open -/

theorem recordAll_concat (cb : CircuitBreaker) (os : List Outcome) (o : Outcome) :
    recordAll cb (os ++ [o]) = afterRequest (recordAll cb os) o.1 o.2 := by
  simp [recordAll, List.foldl_append]

theorem failureFlags_concat (os : List Outcome) (o : Outcome) :
    failureFlags (os ++ [o]) = failureFlags os ++ [o.1.isSome] := by
  simp [failureFlags]

theorem onSuccess_closed (cb : CircuitBreaker) (h : cb.state = .StateClosed) :
    onSuccess cb = { cb with failures := 0 } := by
  simp [onSuccess, h]

theorem onFailure_closed (cb : CircuitBreaker) (now : Int) (h : cb.state = .StateClosed) :
    onFailure cb now =
      if wrapInt (cb.failures + 1) ≥ cb.maxFailures then
        { cb with failures := wrapInt (cb.failures + 1), lastFailTime := now, state := .StateOpen }
      else
        { cb with failures := wrapInt (cb.failures + 1), lastFailTime := now } := by
  simp [onFailure, h]

/-- While no run of `maxFailures` failures has been recorded on a fresh
breaker, it is Closed and `failures` is the length of the trailing run. -/
theorem recordAll_closed (m t : Int) (hm : 0 < m) (hI : IsGoInt m) (os : List Outcome)
    (h : ¬ List.replicate m.toNat true <:+: failureFlags os) :
    (recordAll (NewCircuitBreaker m t) os).state = .StateClosed ∧
    (recordAll (NewCircuitBreaker m t) os).failures = trailingFailures (failureFlags os) ∧
    (recordAll (NewCircuitBreaker m t) os).maxFailures = m ∧
    (trailingFailures (failureFlags os) : Int) < m := by
  induction os using List.reverseRecOn with
  | nil =>
    refine ⟨rfl, by simp [recordAll, NewCircuitBreaker, failureFlags, trailingFailures], rfl, ?_⟩
    simpa [failureFlags, trailingFailures] using hm
  | append_singleton os o ih =>
    rw [failureFlags_concat] at h
    have h0 : ¬ List.replicate m.toNat true <:+: failureFlags os := fun hc =>
      h (hc.trans (List.prefix_append _ _).isInfix)
    obtain ⟨hs, hf, hmx, hlt⟩ := ih h0
    rw [recordAll_concat, failureFlags_concat, trailingFailures_concat]
    obtain ⟨e, now⟩ := o
    cases e with
    | none =>
      simp only [afterRequest, Option.isSome_none]
      rw [onSuccess_closed _ hs]
      exact ⟨hs, by simp, hmx, by simpa using hm⟩
    | some e =>
      simp only [afterRequest, Option.isSome_some, if_true]
      simp only [Option.isSome_some] at h
      have hw : wrapInt ((recordAll (NewCircuitBreaker m t) os).failures + 1)
          = (trailingFailures (failureFlags os) : Int) + 1 := by
        rw [hf]
        apply wrapInt_succ
        · unfold minInt; omega
        · unfold IsGoInt at hI; omega
      have hlt2 : (trailingFailures (failureFlags os) : Int) + 1 < m := by
        by_contra hge
        apply h
        apply List.IsSuffix.isInfix
        rw [replicate_suffix_iff, trailingFailures_concat]
        simp only [if_true]
        omega
      rw [onFailure_closed _ _ hs, hw, hmx, if_neg (by omega)]
      refine ⟨hs, ?_, rfl, ?_⟩
      · simp
      · push_cast; exact hlt2

/-- C1. A breaker built by `NewCircuitBreaker m t` with `m > 0` starts Closed;
after any recorded outcomes that contain no run of `m` consecutive failures it
is still Closed; when one more outcome completes the first run of `m`
consecutive failures it is Open; and a success recorded while Closed leaves
it Closed with `failures = 0`. -/
theorem closed_to_open_after_maxFailures (m t : Int) (hm : 0 < m) (hI : IsGoInt m) :
    (NewCircuitBreaker m t).state = .StateClosed ∧
    (∀ os : List Outcome, ¬ List.replicate m.toNat true <:+: failureFlags os →
      (recordAll (NewCircuitBreaker m t) os).state = .StateClosed) ∧
    (∀ (os : List Outcome) (o : Outcome),
      ¬ List.replicate m.toNat true <:+: failureFlags os →
      List.replicate m.toNat true <:+ failureFlags (os ++ [o]) →
      (recordAll (NewCircuitBreaker m t) (os ++ [o])).state = .StateOpen) ∧
    (∀ (cb : CircuitBreaker) (now : Int), cb.state = .StateClosed →
      (afterRequest cb none now).state = .StateClosed ∧
      (afterRequest cb none now).failures = 0) := by
  refine ⟨rfl, fun os h => (recordAll_closed m t hm hI os h).1, ?_, ?_⟩
  · intro os o h hsuf
    obtain ⟨hs, hf, hmx, hlt⟩ := recordAll_closed m t hm hI os h
    rw [replicate_suffix_iff, failureFlags_concat, trailingFailures_concat] at hsuf
    obtain ⟨e, now⟩ := o
    cases e with
    | none =>
      simp at hsuf
      omega
    | some e =>
      simp only [Option.isSome_some, if_true] at hsuf
      have hw : wrapInt ((recordAll (NewCircuitBreaker m t) os).failures + 1)
          = (trailingFailures (failureFlags os) : Int) + 1 := by
        rw [hf]
        apply wrapInt_succ
        · unfold minInt; omega
        · unfold IsGoInt at hI; omega
      rw [recordAll_concat]
      simp only [afterRequest]
      rw [onFailure_closed _ _ hs, hw, hmx, if_pos (by omega)]
  · intro cb now h
    simp only [afterRequest]
    rw [onSuccess_closed _ h]
    exact ⟨h, rfl⟩

/-- Instance of C1 at `maxFailures = 5`. -/
theorem closed_to_open_after_maxFailures_witness :
    (0 : Int) < 2 ∧ IsGoInt 2 ∧
    (recordAll (NewCircuitBreaker 2 30)
      [(some (.other "e"), 1), (none, 2), (some (.other "e"), 3)]).state = .StateClosed ∧
    (recordAll (NewCircuitBreaker 2 30)
      ([(some (.other "e"), 1), (none, 2), (some (.other "e"), 3)] ++
        [(some (.other "e"), 4)])).state = .StateOpen :=
  ⟨by decide, by decide,
    (closed_to_open_after_maxFailures 2 30 (by decide) (by decide)).2.1
      [(some (.other "e"), 1), (none, 2), (some (.other "e"), 3)] (by decide),
    (closed_to_open_after_maxFailures 2 30 (by decide) (by decide)).2.2.1
      [(some (.other "e"), 1), (none, 2), (some (.other "e"), 3)] (some (.other "e"), 4)
      (by decide) (by decide)⟩

/-! ## Open to HalfOpen -/

theorem Since_of_inRange (now t : Int) (h0 : minInt ≤ now - t) (h1 : now - t ≤ maxInt) :
    Since now t = now - t := by
  unfold Since
  rw [if_neg (not_lt.mpr h1), if_neg (not_lt.mpr h0)]

/-- Against a timeout below the largest `Duration` the saturated reading and
the exact difference compare alike. -/
theorem Since_gt_iff (now t timeout : Int) (h0 : minInt ≤ timeout) (h1 : timeout < maxInt) :
    Since now t > timeout ↔ now - t > timeout := by
  unfold minInt at h0
  unfold maxInt at h1
  unfold Since minInt maxInt
  split
  · omega
  · split <;> omega

theorem beforeRequest_open (cb : CircuitBreaker) (now : Int) (h : cb.state = .StateOpen) :
    beforeRequest cb now =
      if Since now cb.lastFailTime > cb.resetTimeout then
        (none, { cb with state := .StateHalfOpen, successCount := 0 })
      else
        (some .ErrCircuitOpen, cb) := by
  simp [beforeRequest, h]

theorem beforeRequest_halfOpen_snd (cb : CircuitBreaker) (now : Int)
    (h : cb.state = .StateHalfOpen) : (beforeRequest cb now).2 = cb := by
  simp only [beforeRequest, h]
  split <;> rfl

theorem pollAll_halfOpen (cb : CircuitBreaker) (ts : List Int) (h : cb.state = .StateHalfOpen) :
    (pollAll cb ts).2 = cb := by
  induction ts with
  | nil => rfl
  | cons t ts ih =>
    simp only [pollAll]
    rw [beforeRequest_halfOpen_snd cb t h]
    exact ih

theorem pollAll_open_early (cb : CircuitBreaker) (ts : List Int) (h : cb.state = .StateOpen)
    (hts : ∀ t ∈ ts, ¬ Since t cb.lastFailTime > cb.resetTimeout) :
    pollAll cb ts = (ts.map (fun _ => some GoError.ErrCircuitOpen), cb) := by
  induction ts with
  | nil => rfl
  | cons t ts ih =>
    have ht : ¬ Since t cb.lastFailTime > cb.resetTimeout := hts t (List.mem_cons_self _ _)
    simp only [pollAll]
    rw [beforeRequest_open cb t h, if_neg ht]
    simp only [List.map_cons]
    rw [ih (fun u hu => hts u (List.mem_cons_of_mem _ hu))]

theorem pollAll_append (cb : CircuitBreaker) (ts us : List Int) :
    pollAll cb (ts ++ us) =
      ((pollAll cb ts).1 ++ (pollAll (pollAll cb ts).2 us).1, (pollAll (pollAll cb ts).2 us).2) := by
  induction ts generalizing cb with
  | nil => rfl
  | cons t ts ih =>
    have e := ih (beforeRequest cb t).2
    show ((beforeRequest cb t).1 :: (pollAll (beforeRequest cb t).2 (ts ++ us)).1,
        (pollAll (beforeRequest cb t).2 (ts ++ us)).2) = _
    rw [e]
    rfl

/-- C2 fails as stated. A breaker with `resetTimeout` the largest `Duration`,
opened by a failure at instant 0 and polled 2^63 ns later: `now - lastFailTime`
exceeds `resetTimeout`, yet `time.Since` saturates at `resetTimeout` and
`beforeRequest` answers `ErrCircuitOpen` and leaves the breaker Open. -/
theorem open_admission_uses_saturated_clock :
    (onFailure (NewCircuitBreaker 1 9223372036854775807) 0).state = .StateOpen ∧
    (9223372036854775808 - (onFailure (NewCircuitBreaker 1 9223372036854775807) 0).lastFailTime
      > (onFailure (NewCircuitBreaker 1 9223372036854775807) 0).resetTimeout) ∧
    beforeRequest (onFailure (NewCircuitBreaker 1 9223372036854775807) 0) 9223372036854775808 =
      (some .ErrCircuitOpen, onFailure (NewCircuitBreaker 1 9223372036854775807) 0) := by
  decide

/-- C2 as amended. For a breaker in state Open, `beforeRequest` at clock `now`
answers nil exactly when `time.Since(lastFailTime) > resetTimeout`, which for
every `resetTimeout` below the largest `Duration` is exactly when
`now - lastFailTime > resetTimeout`; it then moves the breaker to HalfOpen
with `successCount = 0` and changes nothing else; otherwise it answers
`ErrCircuitOpen` and leaves the breaker as it is. Any polls made before the
timeout has elapsed are all denied and change nothing, and after the first
poll past the timeout the breaker is HalfOpen with `successCount = 0`
whatever polls follow. -/
theorem open_to_halfOpen_on_timeout (cb : CircuitBreaker) (h : cb.state = .StateOpen) :
    (∀ now : Int,
      ((beforeRequest cb now).1 = none ↔ Since now cb.lastFailTime > cb.resetTimeout)) ∧
    (IsGoInt cb.resetTimeout → cb.resetTimeout < maxInt → ∀ now : Int,
      (Since now cb.lastFailTime > cb.resetTimeout ↔ now - cb.lastFailTime > cb.resetTimeout) ∧
      ((beforeRequest cb now).1 = none ↔ now - cb.lastFailTime > cb.resetTimeout) ∧
      (now - cb.lastFailTime > cb.resetTimeout →
        beforeRequest cb now = (none, { cb with state := .StateHalfOpen, successCount := 0 })) ∧
      (¬ now - cb.lastFailTime > cb.resetTimeout →
        beforeRequest cb now = (some .ErrCircuitOpen, cb))) ∧
    (∀ now : Int, Since now cb.lastFailTime > cb.resetTimeout →
      beforeRequest cb now = (none, { cb with state := .StateHalfOpen, successCount := 0 })) ∧
    (∀ now : Int, ¬ Since now cb.lastFailTime > cb.resetTimeout →
      beforeRequest cb now = (some .ErrCircuitOpen, cb)) ∧
    (∀ ts : List Int, (∀ t ∈ ts, ¬ Since t cb.lastFailTime > cb.resetTimeout) →
      pollAll cb ts = (ts.map (fun _ => some GoError.ErrCircuitOpen), cb)) ∧
    (∀ (ts : List Int) (now : Int) (us : List Int),
      (∀ t ∈ ts, ¬ Since t cb.lastFailTime > cb.resetTimeout) →
      Since now cb.lastFailTime > cb.resetTimeout →
      (pollAll cb (ts ++ [now])).1 = ts.map (fun _ => some GoError.ErrCircuitOpen) ++ [none] ∧
      (pollAll cb (ts ++ [now])).2 = { cb with state := .StateHalfOpen, successCount := 0 } ∧
      (pollAll cb (ts ++ [now] ++ us)).2 =
        { cb with state := .StateHalfOpen, successCount := 0 }) := by
  have hstep : ∀ (ts : List Int) (now : Int),
      (∀ t ∈ ts, ¬ Since t cb.lastFailTime > cb.resetTimeout) →
      Since now cb.lastFailTime > cb.resetTimeout →
      pollAll cb (ts ++ [now]) = (ts.map (fun _ => some GoError.ErrCircuitOpen) ++ [none],
        { cb with state := .StateHalfOpen, successCount := 0 }) := by
    intro ts now hts hnow
    rw [pollAll_append, pollAll_open_early cb ts h hts]
    simp only [pollAll]
    rw [beforeRequest_open cb now h, if_pos hnow]
  have hiff : ∀ now : Int,
      ((beforeRequest cb now).1 = none ↔ Since now cb.lastFailTime > cb.resetTimeout) := by
    intro now
    rw [beforeRequest_open cb now h]
    split <;> simp_all
  have hpos : ∀ now : Int, Since now cb.lastFailTime > cb.resetTimeout →
      beforeRequest cb now = (none, { cb with state := .StateHalfOpen, successCount := 0 }) := by
    intro now hnow
    rw [beforeRequest_open cb now h, if_pos hnow]
  have hneg : ∀ now : Int, ¬ Since now cb.lastFailTime > cb.resetTimeout →
      beforeRequest cb now = (some .ErrCircuitOpen, cb) := by
    intro now hnow
    rw [beforeRequest_open cb now h, if_neg hnow]
  refine ⟨hiff, ?_, hpos, hneg, fun ts => pollAll_open_early cb ts h, ?_⟩
  · intro hI hlt now
    have he := Since_gt_iff now cb.lastFailTime cb.resetTimeout hI.1 hlt
    exact ⟨he, (hiff now).trans he, fun hd => hpos now (he.mpr hd),
      fun hd => hneg now (fun hc => hd (he.mp hc))⟩
  · intro ts now us hts hnow
    refine ⟨by rw [hstep ts now hts hnow], by rw [hstep ts now hts hnow], ?_⟩
    rw [pollAll_append, hstep ts now hts hnow]
    exact pollAll_halfOpen _ us rfl

/-- Instance of amended C2: a breaker opened at instant 100 with a timeout of
30, polled at 110, 130 and then 131, 140; and the admission test at 131 read
as a plain difference. -/
theorem open_to_halfOpen_on_timeout_witness :
    (onFailure (NewCircuitBreaker 1 30) 100).state = .StateOpen ∧
    (pollAll (onFailure (NewCircuitBreaker 1 30) 100) ([110, 130] ++ [131] ++ [140])).2 =
      { onFailure (NewCircuitBreaker 1 30) 100 with
        state := .StateHalfOpen, successCount := 0 } ∧
    ((beforeRequest (onFailure (NewCircuitBreaker 1 30) 100) 131).1 = none ↔
      131 - (onFailure (NewCircuitBreaker 1 30) 100).lastFailTime
        > (onFailure (NewCircuitBreaker 1 30) 100).resetTimeout) :=
  ⟨by decide,
    ((open_to_halfOpen_on_timeout (onFailure (NewCircuitBreaker 1 30) 100)
      (by decide)).2.2.2.2.2
      [110, 130] 131 [140] (by decide) (by decide)).2.2,
    ((open_to_halfOpen_on_timeout (onFailure (NewCircuitBreaker 1 30) 100)
      (by decide)).2.1 (by decide) (by decide) 131).2.1⟩

/-! ## HalfOpen to Closed -/

theorem onSuccess_halfOpen (cb : CircuitBreaker) (h : cb.state = .StateHalfOpen) :
    onSuccess cb =
      if wrapInt (cb.successCount + 1) ≥ cb.halfOpenMax then
        { cb with state := .StateClosed, failures := 0, successCount := 0 }
      else
        { cb with successCount := wrapInt (cb.successCount + 1) } := by
  simp [onSuccess, h]

theorem wrapInt_one : wrapInt (0 + 1) = 1 := by decide

theorem wrapInt_two : wrapInt (1 + 1) = 2 := by decide

theorem wrapInt_three : wrapInt (2 + 1) = 3 := by decide

/-- C3. From a breaker that has just entered HalfOpen (`successCount = 0`,
probe limit 3), one or two recorded successes leave it HalfOpen and the third
moves it to Closed with `failures = 0` and `successCount = 0`. With
`maxFailures = 5` and `resetTimeout = 30s`: five failures, the last at
instant `t5`, open the breaker; `beforeRequest` 31s later admits and makes it
HalfOpen; three successes then leave it Closed with `failures = 0`. -/
theorem halfOpen_to_closed_after_three_successes :
    (∀ (cb : CircuitBreaker) (t1 t2 t3 : Int), cb.state = .StateHalfOpen →
      cb.successCount = 0 → cb.halfOpenMax = 3 →
      (recordAll cb [(none, t1)]).state = .StateHalfOpen ∧
      (recordAll cb [(none, t1), (none, t2)]).state = .StateHalfOpen ∧
      (recordAll cb [(none, t1), (none, t2), (none, t3)]).state = .StateClosed ∧
      (recordAll cb [(none, t1), (none, t2), (none, t3)]).failures = 0 ∧
      (recordAll cb [(none, t1), (none, t2), (none, t3)]).successCount = 0) ∧
    (∀ (e1 e2 e3 e4 e5 : GoError) (t1 t2 t3 t4 t5 s1 s2 s3 : Int),
      (recordAll (NewCircuitBreaker 5 (30 * Second))
        [(some e1, t1), (some e2, t2), (some e3, t3), (some e4, t4), (some e5, t5)]).state
          = .StateOpen ∧
      (beforeRequest (recordAll (NewCircuitBreaker 5 (30 * Second))
        [(some e1, t1), (some e2, t2), (some e3, t3), (some e4, t4), (some e5, t5)])
        (t5 + 31 * Second)).1 = none ∧
      (beforeRequest (recordAll (NewCircuitBreaker 5 (30 * Second))
        [(some e1, t1), (some e2, t2), (some e3, t3), (some e4, t4), (some e5, t5)])
        (t5 + 31 * Second)).2.state = .StateHalfOpen ∧
      (recordAll (beforeRequest (recordAll (NewCircuitBreaker 5 (30 * Second))
        [(some e1, t1), (some e2, t2), (some e3, t3), (some e4, t4), (some e5, t5)])
        (t5 + 31 * Second)).2 [(none, s1), (none, s2), (none, s3)]).state = .StateClosed ∧
      (recordAll (beforeRequest (recordAll (NewCircuitBreaker 5 (30 * Second))
        [(some e1, t1), (some e2, t2), (some e3, t3), (some e4, t4), (some e5, t5)])
        (t5 + 31 * Second)).2 [(none, s1), (none, s2), (none, s3)]).failures = 0) := by
  have gen : ∀ (cb : CircuitBreaker) (t1 t2 t3 : Int), cb.state = .StateHalfOpen →
      cb.successCount = 0 → cb.halfOpenMax = 3 →
      (recordAll cb [(none, t1)]).state = .StateHalfOpen ∧
      (recordAll cb [(none, t1), (none, t2)]).state = .StateHalfOpen ∧
      (recordAll cb [(none, t1), (none, t2), (none, t3)]).state = .StateClosed ∧
      (recordAll cb [(none, t1), (none, t2), (none, t3)]).failures = 0 ∧
      (recordAll cb [(none, t1), (none, t2), (none, t3)]).successCount = 0 := by
    intro cb t1 t2 t3 hs hc hm
    have h1 : onSuccess cb = { cb with successCount := 1 } := by
      rw [onSuccess_halfOpen cb hs, hc, hm, wrapInt_one, if_neg (by decide)]
    have h2 : onSuccess { cb with successCount := 1 } = { cb with successCount := 2 } := by
      rw [onSuccess_halfOpen _
        (show ({ cb with successCount := 1 } : CircuitBreaker).state = .StateHalfOpen from hs)]
      simp only [hm, wrapInt_two]
      rw [if_neg (by decide)]
    have h3 : onSuccess { cb with successCount := 2 } =
        { cb with state := .StateClosed, failures := 0, successCount := 0 } := by
      rw [onSuccess_halfOpen _
        (show ({ cb with successCount := 2 } : CircuitBreaker).state = .StateHalfOpen from hs)]
      simp only [hm, wrapInt_three]
      rw [if_pos (by decide)]
    simp only [recordAll, List.foldl_cons, List.foldl_nil, afterRequest, h1, h2, h3]
    simp [hs]
  refine ⟨gen, ?_⟩
  intro e1 e2 e3 e4 e5 t1 t2 t3 t4 t5 s1 s2 s3
  have h5 : recordAll (NewCircuitBreaker 5 (30 * Second))
      [(some e1, t1), (some e2, t2), (some e3, t3), (some e4, t4), (some e5, t5)] =
      { NewCircuitBreaker 5 (30 * Second) with
        state := .StateOpen, failures := 5, lastFailTime := t5 } := by
    simp [recordAll, afterRequest, onFailure, NewCircuitBreaker, wrapInt]
  have hb : beforeRequest { NewCircuitBreaker 5 (30 * Second) with
        state := .StateOpen, failures := 5, lastFailTime := t5 } (t5 + 31 * Second) =
      (none, { NewCircuitBreaker 5 (30 * Second) with
        state := .StateHalfOpen, failures := 5, lastFailTime := t5 }) := by
    rw [beforeRequest_open _ _ rfl, if_pos]
    · rfl
    · show Since (t5 + 31 * Second) t5 > 30 * Second
      rw [Since_of_inRange _ _ (by unfold minInt Second; omega) (by unfold maxInt Second; omega)]
      unfold Second
      omega
  rw [h5, hb]
  have g := gen { NewCircuitBreaker 5 (30 * Second) with
        state := .StateHalfOpen, failures := 5, lastFailTime := t5 } s1 s2 s3 rfl rfl rfl
  exact ⟨rfl, rfl, rfl, g.2.2.1, g.2.2.2.1⟩

/-- Instance of C3 at a breaker that has just entered HalfOpen. -/
theorem halfOpen_to_closed_after_three_successes_witness :
    (recordAll { NewCircuitBreaker 5 30 with state := .StateHalfOpen, failures := 5 }
      [(none, 1), (none, 2)]).state = .StateHalfOpen ∧
    (recordAll { NewCircuitBreaker 5 30 with state := .StateHalfOpen, failures := 5 }
      [(none, 1), (none, 2), (none, 3)]).state = .StateClosed :=
  ⟨(halfOpen_to_closed_after_three_successes.1
      { NewCircuitBreaker 5 30 with state := .StateHalfOpen, failures := 5 } 1 2 3
      rfl rfl rfl).2.1,
    (halfOpen_to_closed_after_three_successes.1
      { NewCircuitBreaker 5 30 with state := .StateHalfOpen, failures := 5 } 1 2 3
      rfl rfl rfl).2.2.1⟩

/-! ## HalfOpen to Open -/

/-- C4. For a breaker in state HalfOpen, whatever its `successCount`, one
failure recorded with `afterRequest` at clock `now` moves it to Open, sets
`successCount` to 0, sets `lastFailTime` to `now`, performs `failures++` (one
more than before whenever `failures` is below the largest `int`) and leaves
the configuration alone. -/
theorem halfOpen_failure_reopens (cb : CircuitBreaker) (e : GoError) (now : Int)
    (h : cb.state = .StateHalfOpen) :
    (afterRequest cb (some e) now).state = .StateOpen ∧
    (afterRequest cb (some e) now).successCount = 0 ∧
    (afterRequest cb (some e) now).failures = wrapInt (cb.failures + 1) ∧
    (minInt ≤ cb.failures → cb.failures < maxInt →
      (afterRequest cb (some e) now).failures = cb.failures + 1) ∧
    (afterRequest cb (some e) now).lastFailTime = now ∧
    (afterRequest cb (some e) now).maxFailures = cb.maxFailures ∧
    (afterRequest cb (some e) now).resetTimeout = cb.resetTimeout ∧
    (afterRequest cb (some e) now).halfOpenMax = cb.halfOpenMax := by
  have hf : afterRequest cb (some e) now =
      { cb with failures := wrapInt (cb.failures + 1), lastFailTime := now,
                state := .StateOpen, successCount := 0 } := by
    simp [afterRequest, onFailure, h]
  rw [hf]
  exact ⟨rfl, rfl, rfl, fun h0 h1 => wrapInt_succ h0 h1, rfl, rfl, rfl, rfl⟩

/-- Instance of C4 at a HalfOpen breaker with two probe successes recorded. -/
theorem halfOpen_failure_reopens_witness :
    (afterRequest { NewCircuitBreaker 5 30 with
        state := .StateHalfOpen, failures := 5, successCount := 2 }
      (some (.other "timeout")) 77).state = .StateOpen ∧
    (afterRequest { NewCircuitBreaker 5 30 with
        state := .StateHalfOpen, failures := 5, successCount := 2 }
      (some (.other "timeout")) 77).failures = 5 + 1 :=
  ⟨(halfOpen_failure_reopens { NewCircuitBreaker 5 30 with
        state := .StateHalfOpen, failures := 5, successCount := 2 }
      (.other "timeout") 77 rfl).1,
    (halfOpen_failure_reopens { NewCircuitBreaker 5 30 with
        state := .StateHalfOpen, failures := 5, successCount := 2 }
      (.other "timeout") 77 rfl).2.2.2.1 (by decide) (by decide)⟩

/-! ## Execute -/

/-- A denial by `beforeRequest` is one of the two sentinels and leaves the
breaker as it was. -/
theorem beforeRequest_denied (cb : CircuitBreaker) (now : Int) (e : GoError)
    (h : (beforeRequest cb now).1 = some e) :
    (e = .ErrCircuitOpen ∨ e = .ErrTooManyRequests) ∧ (beforeRequest cb now).2 = cb := by
  unfold beforeRequest at h ⊢
  cases hs : cb.state <;> simp only [hs] at h ⊢
  · simp at h
  · split at h <;> rename_i hc
    · simp at h
    · simp only [Option.some.injEq] at h
      simp [hc, h.symm]
  · split at h <;> rename_i hc
    · simp only [Option.some.injEq] at h
      simp [hc, h.symm]
    · simp at h

/-- On a denial `Execute` hands the error back with breaker and world as
they were. -/
theorem Execute_denied {σ : Type} (cb : CircuitBreaker) (fn : σ → Option GoError × σ) (w : σ)
    (now now2 : Int) (e : GoError) (h : (beforeRequest cb now).1 = some e) :
    Execute cb fn w now now2 = (some e, cb, w) := by
  have hb : beforeRequest cb now = (some e, cb) :=
    Prod.ext h (beforeRequest_denied cb now e h).2
  simp [Execute, hb]

/-- On an admission `Execute` runs the operation and records its outcome. -/
theorem Execute_admitted {σ : Type} (cb : CircuitBreaker) (fn : σ → Option GoError × σ) (w : σ)
    (now now2 : Int) (h : (beforeRequest cb now).1 = none) :
    Execute cb fn w now now2 =
      ((fn w).1, afterRequest (beforeRequest cb now).2 (fn w).1 now2, (fn w).2) := by
  have hb : beforeRequest cb now = (none, (beforeRequest cb now).2) := Prod.ext h rfl
  unfold Execute
  rw [hb]

/-- C5. If `beforeRequest` denies, the error is `ErrCircuitOpen` or
`ErrTooManyRequests`, `Execute` returns it, does not invoke `fn` (the world and
the invocation count are as before) and leaves the breaker unchanged. If
`beforeRequest` allows, `Execute` invokes `fn` once, returns exactly what `fn`
returned and leaves the breaker that `afterRequest` produces from that
outcome. -/
theorem execute_admit_then_record {σ : Type} (cb : CircuitBreaker)
    (fn : σ → Option GoError × σ) (w : σ) (now now2 : Int) :
    (∀ e : GoError, (beforeRequest cb now).1 = some e →
      (e = .ErrCircuitOpen ∨ e = .ErrTooManyRequests) ∧
      Execute cb fn w now now2 = (some e, cb, w) ∧
      (Execute cb (counted fn) (w, 0) now now2).2.2 = (w, 0)) ∧
    ((beforeRequest cb now).1 = none →
      (Execute cb fn w now now2).1 = (fn w).1 ∧
      (Execute cb fn w now now2).2.1 = afterRequest (beforeRequest cb now).2 (fn w).1 now2 ∧
      (Execute cb fn w now now2).2.2 = (fn w).2 ∧
      (Execute cb (counted fn) (w, 0) now now2).2.2 = ((fn w).2, 1)) := by
  constructor
  · intro e he
    refine ⟨(beforeRequest_denied cb now e he).1, Execute_denied cb fn w now now2 e he, ?_⟩
    rw [Execute_denied cb (counted fn) (w, 0) now now2 e he]
  · intro hn
    rw [Execute_admitted cb fn w now now2 hn, Execute_admitted cb (counted fn) (w, 0) now now2 hn]
    exact ⟨rfl, rfl, rfl, rfl⟩

/-- Instance of C5: an Open breaker polled before its timeout denies and does
not run the operation. -/
theorem execute_admit_then_record_witness :
    Execute { NewCircuitBreaker 1 30 with state := .StateOpen, failures := 1, lastFailTime := 100 }
      (fun n : Nat => (none, n + 1)) 0 110 111 =
    (some .ErrCircuitOpen,
      { NewCircuitBreaker 1 30 with state := .StateOpen, failures := 1, lastFailTime := 100 }, 0) :=
  ((execute_admit_then_record
      { NewCircuitBreaker 1 30 with state := .StateOpen, failures := 1, lastFailTime := 100 }
      (fun n : Nat => (none, n + 1)) 0 110 111).1 .ErrCircuitOpen (by decide)).2.1

/-! ## The push consumer -/

/-- C6. For a delivery that decodes, the consumer's single disposition is
`Ack` when the send succeeds; when the send fails it is `Nack` with requeue
if `getRetryCount` of the headers is below 3 and `Nack` without requeue
otherwise. -/
theorem consumer_disposition_after_decode {σ : Type}
    (unmarshal : String → Option NotificationMessage)
    (send : NotificationMessage → σ → Option GoError × σ) (d : Delivery) (w : σ)
    (n : NotificationMessage) (hdec : unmarshal d.Body = some n) :
    ((send n w).1 = none →
      dispositions (consumeOne unmarshal send d w).1 = [.Ack false]) ∧
    ((send n w).1 ≠ none → getRetryCount d.Headers < 3 →
      dispositions (consumeOne unmarshal send d w).1 = [.Nack false true]) ∧
    ((send n w).1 ≠ none → getRetryCount d.Headers ≥ 3 →
      dispositions (consumeOne unmarshal send d w).1 = [.Nack false false]) := by
  refine ⟨?_, ?_, ?_⟩
  · intro hs
    simp [consumeOne, hdec, hs, dispositions]
  · intro hs hlt
    cases hr : (send n w).1 with
    | none => exact absurd hr hs
    | some e => simp [consumeOne, hdec, hr, hlt, dispositions]
  · intro hs hge
    cases hr : (send n w).1 with
    | none => exact absurd hr hs
    | some e =>
      have : ¬ getRetryCount d.Headers < 3 := not_lt.mpr hge
      simp [consumeOne, hdec, hr, this, dispositions]

/-- Instance of C6: a delivery carrying `x-retry-count = 3` whose send fails
is dead-lettered. -/
theorem consumer_disposition_after_decode_witness :
    dispositions (consumeOne (fun _ => some ⟨"u1", "push", "t", "m", ""⟩)
      (fun _ (w : Unit) => (some (.other "fcm down"), w))
      ⟨"push-1", some [("x-retry-count", .int32 3)]⟩ ()).1 = [.Nack false false] :=
  (consumer_disposition_after_decode (fun _ => some ⟨"u1", "push", "t", "m", ""⟩)
    (fun _ (w : Unit) => (some (.other "fcm down"), w))
    ⟨"push-1", some [("x-retry-count", .int32 3)]⟩ () ⟨"u1", "push", "t", "m", ""⟩ rfl).2.2
    (by simp) (by decide)

/-- With headers that never change, a decodable delivery without a retry
header whose send fails is requeued at every receipt: over `k` receipts the
consumer answers `Nack` with requeue `k` times. -/
theorem requeue_never_reaches_dead_letter (k : Nat) :
    (consumeWithRedelivery (fun _ => some ⟨"u1", "push", "t", "m", ""⟩)
        (fun _ (w : Unit) => (some (.other "fcm down"), w)) k ⟨"push-1", none⟩ ()).map dispositions
      = List.replicate k [.Nack false true] := by
  induction k with
  | zero => rfl
  | succ k ih =>
    rw [List.replicate_succ, ← ih]
    simp [consumeWithRedelivery, consumeOne, getRetryCount, dispositions]

/-- With `sendPushNotification` as it stands in the source, which returns nil,
every delivery that decodes is acknowledged; the retry branch is not taken. -/
theorem shipped_send_is_acked {σ : Type} (unmarshal : String → Option NotificationMessage)
    (d : Delivery) (w : σ) (n : NotificationMessage) (hdec : unmarshal d.Body = some n) :
    consumeOne unmarshal (fun m v => (sendPushNotification m, v)) d w =
      ([.SendPush n, .Ack false], w) := by
  simp [consumeOne, hdec, sendPushNotification]

/-- C8. For a delivery whose body does not decode, whatever its headers, the
consumer makes exactly one call, `Nack` without requeue, never invokes the
send, and leaves the world of the send untouched. -/
theorem consumer_decode_failure_dead_letters {σ : Type}
    (unmarshal : String → Option NotificationMessage)
    (send : NotificationMessage → σ → Option GoError × σ) (d : Delivery) (w : σ)
    (hdec : unmarshal d.Body = none) :
    consumeOne unmarshal send d w = ([.Nack false false], w) ∧
    dispositions (consumeOne unmarshal send d w).1 = [.Nack false false] ∧
    sends (consumeOne unmarshal send d w).1 = [] := by
  simp [consumeOne, hdec, dispositions, sends]

/-- Instance of C8: an undecodable delivery that carries a retry header. -/
theorem consumer_decode_failure_dead_letters_witness :
    consumeOne (fun _ => none) (fun _ (w : Nat) => (none, w + 1))
      ⟨"not json", some [("x-retry-count", .int32 1)]⟩ 0 = ([.Nack false false], 0) :=
  (consumer_decode_failure_dead_letters (fun _ => none) (fun _ (w : Nat) => (none, w + 1))
    ⟨"not json", some [("x-retry-count", .int32 1)]⟩ 0 rfl).1

/-! ## Probes admitted in HalfOpen -/

theorem beforeRequest_halfOpen_admits (cb : CircuitBreaker) (now : Int)
    (h : cb.state = .StateHalfOpen) (hc : cb.successCount < cb.halfOpenMax) :
    beforeRequest cb now = (none, cb) := by
  simp [beforeRequest, h, not_le.mpr hc]

theorem pollAll_halfOpen_admits (cb : CircuitBreaker) (ts : List Int)
    (h : cb.state = .StateHalfOpen) (hc : cb.successCount < cb.halfOpenMax) :
    pollAll cb ts = (ts.map (fun _ => none), cb) := by
  induction ts with
  | nil => rfl
  | cons t ts ih =>
    simp only [pollAll, beforeRequest_halfOpen_admits cb t h hc, ih, List.map_cons]

theorem probeInv_beforeRequest (cb : CircuitBreaker) (now : Int) (h : ProbeInv cb) :
    ProbeInv (beforeRequest cb now).2 := by
  obtain ⟨h1, h2, h3⟩ := h
  unfold ProbeInv beforeRequest
  split
  · exact ⟨h1, h2, h3⟩
  · split
    · exact ⟨h1, le_refl _, by norm_num⟩
    · exact ⟨h1, h2, h3⟩
  · split <;> exact ⟨h1, h2, h3⟩

theorem probeInv_onSuccess (cb : CircuitBreaker) (h : ProbeInv cb) : ProbeInv (onSuccess cb) := by
  obtain ⟨h1, h2, h3⟩ := h
  have hw : wrapInt (cb.successCount + 1) = cb.successCount + 1 :=
    wrapInt_succ (by unfold minInt; omega) (by unfold maxInt; omega)
  unfold ProbeInv onSuccess
  split
  · exact ⟨h1, h2, h3⟩
  · dsimp only
    rw [hw, h1]
    split
    · exact ⟨rfl, le_refl _, by norm_num⟩
    · refine ⟨rfl, ?_, ?_⟩ <;> dsimp only <;> omega
  · exact ⟨h1, h2, h3⟩

theorem probeInv_onFailure (cb : CircuitBreaker) (now : Int) (h : ProbeInv cb) :
    ProbeInv (onFailure cb now) := by
  obtain ⟨h1, h2, h3⟩ := h
  unfold ProbeInv onFailure
  dsimp only
  split
  · split <;> exact ⟨h1, h2, h3⟩
  · exact ⟨h1, le_refl _, by norm_num⟩
  · exact ⟨h1, h2, h3⟩

theorem probeInv_afterRequest (cb : CircuitBreaker) (err : Option GoError) (now : Int)
    (h : ProbeInv cb) : ProbeInv (afterRequest cb err now) := by
  cases err with
  | none => exact probeInv_onSuccess cb h
  | some e => exact probeInv_onFailure cb now h

theorem probeInv_applyCalls (cb : CircuitBreaker) (cs : List Call) (h : ProbeInv cb) :
    ProbeInv (applyCalls cb cs) := by
  induction cs generalizing cb with
  | nil => exact h
  | cons c cs ih =>
    apply ih
    cases c with
    | before now => exact probeInv_beforeRequest cb now h
    | after err now => exact probeInv_afterRequest cb err now h

/-- C9 (what the code does). A breaker opened by a failure at instant 0 and
polled 31s later enters HalfOpen and admits that probe; every further
`beforeRequest`, however many are made before any outcome is recorded, is
admitted as well and leaves the breaker as it is. More generally, in no state
reached from `NewCircuitBreaker` by `beforeRequest` and `afterRequest` calls
does `beforeRequest` answer `ErrTooManyRequests`. -/
theorem halfOpen_admits_every_probe (ts : List Int) :
    (beforeRequest (onFailure (NewCircuitBreaker 1 (30 * Second)) 0) (31 * Second)).1 = none ∧
    (beforeRequest (onFailure (NewCircuitBreaker 1 (30 * Second)) 0)
      (31 * Second)).2.state = .StateHalfOpen ∧
    (pollAll (beforeRequest (onFailure (NewCircuitBreaker 1 (30 * Second)) 0) (31 * Second)).2
      ts).1 = ts.map (fun _ => none) ∧
    (pollAll (beforeRequest (onFailure (NewCircuitBreaker 1 (30 * Second)) 0) (31 * Second)).2
      ts).2 = (beforeRequest (onFailure (NewCircuitBreaker 1 (30 * Second)) 0) (31 * Second)).2 ∧
    (∀ (m t : Int) (cs : List Call) (now : Int),
      (beforeRequest (applyCalls (NewCircuitBreaker m t) cs) now).1
        ≠ some .ErrTooManyRequests) := by
  have hb : beforeRequest (onFailure (NewCircuitBreaker 1 (30 * Second)) 0) (31 * Second) =
      (none, { NewCircuitBreaker 1 (30 * Second) with
        state := .StateHalfOpen, failures := 1, lastFailTime := 0 }) := by
    decide
  rw [hb]
  refine ⟨rfl, rfl, ?_, ?_, ?_⟩
  · rw [pollAll_halfOpen_admits _ ts rfl (by decide)]
  · rw [pollAll_halfOpen_admits _ ts rfl (by decide)]
  · intro m t cs now
    obtain ⟨h1, -, h3⟩ :=
      probeInv_applyCalls (NewCircuitBreaker m t) cs ⟨rfl, le_refl _, by norm_num [NewCircuitBreaker]⟩
    unfold beforeRequest
    cases hs : (applyCalls (NewCircuitBreaker m t) cs).state
    · simp
    · dsimp only
      split <;> simp
    · dsimp only
      rw [if_neg (by omega)]
      simp

/-! ## The protected call wrapper -/

/-- C10 fails as stated. On a fresh registry the breaker for "rabbitmq" is
Closed and admits the call; the operation runs and returns the value
`ErrCircuitOpen` as its own error; the wrapper does not return that value but
the dependency-unavailable error. -/
theorem callService_translates_operation_sentinel :
    (beforeRequest (deref (GetBreaker World.init "rabbitmq" 5 (30 * Second)).2.heap
      (GetBreaker World.init "rabbitmq" 5 (30 * Second)).1) 0).1 = none ∧
    (CallServiceWithCircuitBreaker World.init "rabbitmq"
      (fun w : Nat => (some GoError.ErrCircuitOpen, w + 1)) 0 0 1).2.2 = 1 ∧
    (CallServiceWithCircuitBreaker World.init "rabbitmq"
      (fun w : Nat => (some GoError.ErrCircuitOpen, w + 1)) 0 0 1).1 =
      some (.other "service rabbitmq is currently unavailable (circuit breaker open)") ∧
    (CallServiceWithCircuitBreaker World.init "rabbitmq"
      (fun w : Nat => (some GoError.ErrCircuitOpen, w + 1)) 0 0 1).1 ≠
      some .ErrCircuitOpen := by
  decide

/-- C10 as amended. With `cb` the breaker `GetBreaker` yields for the service:
if `beforeRequest` denies with `ErrCircuitOpen` the wrapper returns the
dependency-unavailable error naming the service, if it denies with
`ErrTooManyRequests` the dependency-recovering error, in both cases without
running the operation; if it admits, the wrapper runs the operation and
returns its result unchanged, nil or any error value other than the two
sentinels. -/
theorem callService_error_translation {σ : Type} (r : World) (serviceName : String)
    (fn : σ → Option GoError × σ) (w : σ) (now now2 : Int) :
    ((beforeRequest (deref (GetBreaker r serviceName 5 (30 * Second)).2.heap
        (GetBreaker r serviceName 5 (30 * Second)).1) now).1 = some .ErrCircuitOpen →
      (CallServiceWithCircuitBreaker r serviceName fn w now now2).1 =
        some (.other ("service " ++ serviceName ++
          " is currently unavailable (circuit breaker open)")) ∧
      (CallServiceWithCircuitBreaker r serviceName fn w now now2).2.2 = w) ∧
    ((beforeRequest (deref (GetBreaker r serviceName 5 (30 * Second)).2.heap
        (GetBreaker r serviceName 5 (30 * Second)).1) now).1 = some .ErrTooManyRequests →
      (CallServiceWithCircuitBreaker r serviceName fn w now now2).1 =
        some (.other ("service " ++ serviceName ++ " is recovering, please try again later")) ∧
      (CallServiceWithCircuitBreaker r serviceName fn w now now2).2.2 = w) ∧
    ((beforeRequest (deref (GetBreaker r serviceName 5 (30 * Second)).2.heap
        (GetBreaker r serviceName 5 (30 * Second)).1) now).1 = none →
      (fn w).1 ≠ some .ErrCircuitOpen → (fn w).1 ≠ some .ErrTooManyRequests →
      (CallServiceWithCircuitBreaker r serviceName fn w now now2).1 = (fn w).1 ∧
      (CallServiceWithCircuitBreaker r serviceName fn w now now2).2.2 = (fn w).2) := by
  refine ⟨?_, ?_, ?_⟩
  · intro hd
    have hx := Execute_denied _ fn w now now2 _ hd
    simp [CallServiceWithCircuitBreaker, hx]
  · intro hd
    have hx := Execute_denied _ fn w now now2 _ hd
    simp [CallServiceWithCircuitBreaker, hx]
  · intro hd h1 h2
    have hx := Execute_admitted _ fn w now now2 hd
    simp [CallServiceWithCircuitBreaker, hx, h1, h2]

/-- Instance of amended C10: on a fresh registry an operation failing with
its own error gets that error back. -/
theorem callService_error_translation_witness :
    (CallServiceWithCircuitBreaker World.init "rabbitmq"
      (fun w : Nat => (some (GoError.other "connection refused"), w + 1)) 0 0 1).1 =
      some (.other "connection refused") :=
  ((callService_error_translation World.init "rabbitmq"
      (fun w : Nat => (some (GoError.other "connection refused"), w + 1)) 0 0 1).2.2
    (by decide) (by decide) (by decide)).1

/-! ## Exactly one disposition per delivery -/

/-- C12. One pass of the consumer loop makes exactly one terminal call on the
delivery, an `Ack`, a `Nack` with requeue or a `Nack` without requeue, on each
of its four paths: decode failure, send failure below the retry limit, send
failure at the limit, send success. -/
theorem consumer_exactly_one_disposition {σ : Type}
    (unmarshal : String → Option NotificationMessage)
    (send : NotificationMessage → σ → Option GoError × σ) (d : Delivery) (w : σ) :
    (dispositions (consumeOne unmarshal send d w).1 = [.Ack false] ∨
      dispositions (consumeOne unmarshal send d w).1 = [.Nack false true] ∨
      dispositions (consumeOne unmarshal send d w).1 = [.Nack false false]) ∧
    (dispositions (consumeOne unmarshal send d w).1).length = 1 ∧
    (unmarshal d.Body = none →
      dispositions (consumeOne unmarshal send d w).1 = [.Nack false false]) ∧
    (∀ n e, unmarshal d.Body = some n → (send n w).1 = some e → getRetryCount d.Headers < 3 →
      dispositions (consumeOne unmarshal send d w).1 = [.Nack false true]) ∧
    (∀ n e, unmarshal d.Body = some n → (send n w).1 = some e → ¬ getRetryCount d.Headers < 3 →
      dispositions (consumeOne unmarshal send d w).1 = [.Nack false false]) ∧
    (∀ n, unmarshal d.Body = some n → (send n w).1 = none →
      dispositions (consumeOne unmarshal send d w).1 = [.Ack false]) := by
  have p1 : unmarshal d.Body = none →
      dispositions (consumeOne unmarshal send d w).1 = [.Nack false false] := by
    intro h
    simp [consumeOne, h, dispositions]
  have p2 : ∀ n e, unmarshal d.Body = some n → (send n w).1 = some e →
      getRetryCount d.Headers < 3 →
      dispositions (consumeOne unmarshal send d w).1 = [.Nack false true] := by
    intro n e h hs hr
    simp [consumeOne, h, hs, hr, dispositions]
  have p3 : ∀ n e, unmarshal d.Body = some n → (send n w).1 = some e →
      ¬ getRetryCount d.Headers < 3 →
      dispositions (consumeOne unmarshal send d w).1 = [.Nack false false] := by
    intro n e h hs hr
    simp [consumeOne, h, hs, hr, dispositions]
  have p4 : ∀ n, unmarshal d.Body = some n → (send n w).1 = none →
      dispositions (consumeOne unmarshal send d w).1 = [.Ack false] := by
    intro n h hs
    simp [consumeOne, h, hs, dispositions]
  have hall : dispositions (consumeOne unmarshal send d w).1 = [.Ack false] ∨
      dispositions (consumeOne unmarshal send d w).1 = [.Nack false true] ∨
      dispositions (consumeOne unmarshal send d w).1 = [.Nack false false] := by
    cases h : unmarshal d.Body with
    | none => exact Or.inr (Or.inr (p1 h))
    | some n =>
      cases hs : (send n w).1 with
      | none => exact Or.inl (p4 n h hs)
      | some e =>
        by_cases hr : getRetryCount d.Headers < 3
        · exact Or.inr (Or.inl (p2 n e h hs hr))
        · exact Or.inr (Or.inr (p3 n e h hs hr))
  refine ⟨hall, ?_, p1, p2, p3, p4⟩
  rcases hall with h | h | h <;> rw [h] <;> rfl

/-- Instance of C12: a delivery with two retries behind it whose send fails. -/
theorem consumer_exactly_one_disposition_witness :
    dispositions (consumeOne (fun _ => some ⟨"u1", "push", "t", "m", ""⟩)
      (fun _ (w : Unit) => (some (.other "fcm down"), w))
      ⟨"push-1", some [("x-retry-count", .int32 2)]⟩ ()).1 = [.Nack false true] :=
  (consumer_exactly_one_disposition (fun _ => some ⟨"u1", "push", "t", "m", ""⟩)
    (fun _ (w : Unit) => (some (.other "fcm down"), w))
    ⟨"push-1", some [("x-retry-count", .int32 2)]⟩ ()).2.2.2.1
    ⟨"u1", "push", "t", "m", ""⟩ (.other "fcm down") rfl rfl (by decide)

/-! ## GetBreaker, one call -/

theorem filter_of_lookup_none {α : Type} (l : List (String × α)) (k : String)
    (h : l.lookup k = none) : l.filter (fun e => e.1 != k) = l := by
  rw [List.filter_eq_self]
  intro p hp
  rw [List.lookup_eq_none_iff] at h
  have hk := h p hp
  simp only [bne_iff_ne, ne_eq] at hk ⊢
  exact fun hc => hk hc.symm

theorem mapAssign_of_lookup_none {α : Type} (l : List (String × α)) (k : String) (v : α)
    (h : l.lookup k = none) : mapAssign l k v = l ++ [(k, v)] := by
  unfold mapAssign
  rw [filter_of_lookup_none l k h]

/-- A registered name gets its pointer back and nothing changes. -/
theorem GetBreaker_registered (r : World) (name : String) (m t : Int) (p : Nat)
    (h : r.circuitBreakerManager.breakers.lookup name = some p) :
    GetBreaker r name m t = (p, r) := by
  simp [GetBreaker, h]

/-- A name not registered gets a fresh breaker at the next address. -/
theorem GetBreaker_new (r : World) (name : String) (m t : Int)
    (h : r.circuitBreakerManager.breakers.lookup name = none) :
    GetBreaker r name m t = (r.heap.length,
      { heap := r.heap ++ [NewCircuitBreaker m t]
        circuitBreakerManager :=
          { breakers := r.circuitBreakerManager.breakers ++ [(name, r.heap.length)] } }) := by
  simp [GetBreaker, h, mapAssign_of_lookup_none _ _ _ h]

/-! ## Construction without validation -/

/-- C13 fails as stated. `NewCircuitBreaker` given `maxFailures = 0` and
`resetTimeout = 0` returns a Closed breaker that admits a call and lets
`Execute` run the operation, and `GetBreaker` given the same configuration for
a new name allocates and registers that breaker. -/
theorem newCircuitBreaker_accepts_zero_config :
    (NewCircuitBreaker 0 0).state = .StateClosed ∧
    beforeRequest (NewCircuitBreaker 0 0) 5 = (none, NewCircuitBreaker 0 0) ∧
    (Execute (NewCircuitBreaker 0 0) (fun w : Nat => (none, w + 1)) 0 5 6).1 = none ∧
    (Execute (NewCircuitBreaker 0 0) (fun w : Nat => (none, w + 1)) 0 5 6).2.2 = 1 ∧
    GetBreaker World.init "email" 0 0 =
      (0, { heap := [NewCircuitBreaker 0 0],
            circuitBreakerManager := { breakers := [("email", 0)] } }) := by
  decide

/-- C13 as amended. For every `maxFailures` and `resetTimeout`, non-positive
ones included, `NewCircuitBreaker` returns a breaker holding exactly that
configuration, Closed with zero counters, which admits calls; `GetBreaker`
for a name not yet registered allocates that breaker, registers it and returns
its address. Neither reports an error. -/
theorem newCircuitBreaker_performs_no_validation (m t : Int) :
    (NewCircuitBreaker m t).maxFailures = m ∧
    (NewCircuitBreaker m t).resetTimeout = t ∧
    (NewCircuitBreaker m t).state = .StateClosed ∧
    (NewCircuitBreaker m t).failures = 0 ∧
    (NewCircuitBreaker m t).successCount = 0 ∧
    (∀ now : Int, beforeRequest (NewCircuitBreaker m t) now = (none, NewCircuitBreaker m t)) ∧
    (∀ (r : World) (name : String), r.circuitBreakerManager.breakers.lookup name = none →
      (GetBreaker r name m t).1 = r.heap.length ∧
      (GetBreaker r name m t).2.heap = r.heap ++ [NewCircuitBreaker m t] ∧
      deref (GetBreaker r name m t).2.heap (GetBreaker r name m t).1 = NewCircuitBreaker m t ∧
      (GetBreaker r name m t).2.circuitBreakerManager.breakers.lookup name
        = some r.heap.length) := by
  refine ⟨rfl, rfl, rfl, rfl, rfl, fun now => rfl, ?_⟩
  intro r name h
  rw [GetBreaker_new r name m t h]
  refine ⟨rfl, rfl, ?_, ?_⟩
  · simp [deref, List.getD]
  · simp [List.lookup_append, h]

/-- Instance of amended C13 at a negative configuration. -/
theorem newCircuitBreaker_performs_no_validation_witness :
    (GetBreaker World.init "email" (-1) (-5)).2.heap = [] ++ [NewCircuitBreaker (-1) (-5)] :=
  ((newCircuitBreaker_performs_no_validation (-1) (-5)).2.2.2.2.2.2 World.init "email" rfl).2.1

/-! ## Retry count -/

/-- C16. `getRetryCount` is 0 for the nil table, for a table without the key
"x-retry-count" and for a table whose value under that key is not an `int32`
(a string or an `int64`, for instance); it is `n` when the value is the
`int32` `n`. -/
theorem getRetryCount_defaults_to_zero :
    getRetryCount none = 0 ∧
    (∀ m : List (String × AmqpValue), m.lookup "x-retry-count" = none →
      getRetryCount (some m) = 0) ∧
    (∀ (m : List (String × AmqpValue)) (v : AmqpValue), m.lookup "x-retry-count" = some v →
      (∀ n : Int, v ≠ .int32 n) → getRetryCount (some m) = 0) ∧
    (∀ (m : List (String × AmqpValue)) (s : String),
      m.lookup "x-retry-count" = some (.str s) → getRetryCount (some m) = 0) ∧
    (∀ (m : List (String × AmqpValue)) (k : Int),
      m.lookup "x-retry-count" = some (.int64 k) → getRetryCount (some m) = 0) ∧
    (∀ (m : List (String × AmqpValue)) (n : Int),
      m.lookup "x-retry-count" = some (.int32 n) → getRetryCount (some m) = n) := by
  refine ⟨rfl, ?_, ?_, ?_, ?_, ?_⟩
  · intro m h
    simp [getRetryCount, h]
  · intro m v h hv
    cases v <;> simp_all [getRetryCount]
  · intro m s h
    simp [getRetryCount, h]
  · intro m k h
    simp [getRetryCount, h]
  · intro m n h
    simp [getRetryCount, h]

/-- Instance of C16: a count stored as `int64` reads as 0, one stored as
`int32` reads as itself. -/
theorem getRetryCount_defaults_to_zero_witness :
    getRetryCount (some [("x-death", .str "rejected"), ("x-retry-count", .int64 2)]) = 0 ∧
    getRetryCount (some [("x-death", .str "rejected"), ("x-retry-count", .int32 2)]) = 2 :=
  ⟨getRetryCount_defaults_to_zero.2.2.2.2.1
      [("x-death", .str "rejected"), ("x-retry-count", .int64 2)] 2 (by decide),
    getRetryCount_defaults_to_zero.2.2.2.2.2
      [("x-death", .str "rejected"), ("x-retry-count", .int32 2)] 2 (by decide)⟩

/-! ## Breaker invariants over arbitrary call sequences -/

theorem applyCalls_concat (cb : CircuitBreaker) (cs : List Call) (c : Call) :
    applyCalls cb (cs ++ [c]) = applyCall (applyCalls cb cs) c := by
  simp [applyCalls, List.foldl_append]

theorem successCount_zero_beforeRequest (cb : CircuitBreaker) (now : Int)
    (h : cb.state ≠ .StateHalfOpen → cb.successCount = 0) :
    (beforeRequest cb now).2.state ≠ .StateHalfOpen → (beforeRequest cb now).2.successCount = 0 := by
  unfold beforeRequest
  split
  · exact h
  · split
    · intro hc; exact absurd rfl hc
    · exact h
  · split <;> exact h

theorem successCount_zero_onSuccess (cb : CircuitBreaker)
    (h : cb.state ≠ .StateHalfOpen → cb.successCount = 0) :
    (onSuccess cb).state ≠ .StateHalfOpen → (onSuccess cb).successCount = 0 := by
  unfold onSuccess
  split
  · exact h
  · rename_i hs
    dsimp only
    split
    · intro _; rfl
    · intro hc; exact absurd hs hc
  · exact h

theorem successCount_zero_onFailure (cb : CircuitBreaker) (now : Int)
    (h : cb.state ≠ .StateHalfOpen → cb.successCount = 0) :
    (onFailure cb now).state ≠ .StateHalfOpen → (onFailure cb now).successCount = 0 := by
  unfold onFailure
  dsimp only
  split
  · rename_i hs
    have h0 : cb.successCount = 0 := h (by rw [hs]; decide)
    split <;> intro _ <;> exact h0
  · intro _; rfl
  · exact h

theorem successCount_zero_applyCalls (cb : CircuitBreaker) (cs : List Call)
    (h : cb.state ≠ .StateHalfOpen → cb.successCount = 0) :
    (applyCalls cb cs).state ≠ .StateHalfOpen → (applyCalls cb cs).successCount = 0 := by
  induction cs using List.reverseRecOn with
  | nil => exact h
  | append_singleton cs c ih =>
    rw [applyCalls_concat]
    cases c with
    | before now => exact successCount_zero_beforeRequest _ now ih
    | after err now =>
      cases err with
      | none => exact successCount_zero_onSuccess _ ih
      | some e => exact successCount_zero_onFailure _ now ih

/-- C15. In every state reached from `NewCircuitBreaker` by any sequence of
`beforeRequest` and `afterRequest` calls, with any outcomes at any clock
readings, `successCount` is 0 whenever the state is Closed or Open; a non-zero
`successCount` occurs only in HalfOpen. -/
theorem successCount_zero_outside_halfOpen (m t : Int) (cs : List Call) :
    ((applyCalls (NewCircuitBreaker m t) cs).state = .StateClosed ∨
      (applyCalls (NewCircuitBreaker m t) cs).state = .StateOpen →
      (applyCalls (NewCircuitBreaker m t) cs).successCount = 0) ∧
    ((applyCalls (NewCircuitBreaker m t) cs).successCount ≠ 0 →
      (applyCalls (NewCircuitBreaker m t) cs).state = .StateHalfOpen) := by
  have key := successCount_zero_applyCalls (NewCircuitBreaker m t) cs (fun _ => rfl)
  constructor
  · intro h
    apply key
    rcases h with h | h <;> rw [h] <;> decide
  · intro h
    by_contra hc
    exact h (key hc)

/-- Instance of C15: a breaker opened by one failure, probed, given one
success and then a failure is Open with `successCount = 0`. -/
theorem successCount_zero_outside_halfOpen_witness :
    (applyCalls (NewCircuitBreaker 1 30)
      [.after (some (.other "e")) 0, .before 31, .after none 32,
        .after (some (.other "e")) 33]).successCount = 0 :=
  (successCount_zero_outside_halfOpen 1 30
    [.after (some (.other "e")) 0, .before 31, .after none 32,
      .after (some (.other "e")) 33]).1 (Or.inr (by decide))

/-! ## The failure counter and the state -/

theorem failInv_mono (m n k : Int) (cb : CircuitBreaker) (h : FailInv m n cb) (hk : n ≤ k) :
    FailInv m k cb := by
  obtain ⟨h1, h2, h3, h4, h5⟩ := h
  exact ⟨h1, h2, le_trans h3 hk, h4, h5⟩

theorem failInv_beforeRequest (m n : Int) (cb : CircuitBreaker) (now : Int)
    (h : FailInv m n cb) : FailInv m n (beforeRequest cb now).2 := by
  obtain ⟨h1, h2, h3, h4, h5⟩ := h
  unfold beforeRequest
  split
  · exact ⟨h1, h2, h3, h4, h5⟩
  · rename_i hs
    split
    · exact ⟨h1, h2, h3, fun hc => CircuitState.noConfusion hc,
        fun _ => h5 (by rw [hs]; decide)⟩
    · exact ⟨h1, h2, h3, h4, h5⟩
  · split <;> exact ⟨h1, h2, h3, h4, h5⟩

theorem failInv_onSuccess (m n : Int) (hm : 0 < m) (cb : CircuitBreaker)
    (h : FailInv m n cb) : FailInv m n (onSuccess cb) := by
  obtain ⟨h1, h2, h3, h4, h5⟩ := h
  have hn : 0 ≤ n := le_trans h2 h3
  unfold onSuccess
  split
  · rename_i hs
    exact ⟨h1, le_refl _, hn, fun _ => hm, fun hc => absurd hs hc⟩
  · rename_i hs
    dsimp only
    split
    · exact ⟨h1, le_refl _, hn, fun _ => hm, fun hc => absurd rfl hc⟩
    · exact ⟨h1, h2, h3, fun hc => h4 hc, fun hc => h5 hc⟩
  · exact ⟨h1, h2, h3, h4, h5⟩

theorem failInv_onFailure (m n : Int) (cb : CircuitBreaker) (now : Int)
    (hn : n < maxInt) (h : FailInv m n cb) : FailInv m (n + 1) (onFailure cb now) := by
  obtain ⟨h1, h2, h3, h4, h5⟩ := h
  have hw : wrapInt (cb.failures + 1) = cb.failures + 1 :=
    wrapInt_succ (by unfold minInt; omega) (by omega)
  unfold onFailure
  dsimp only
  rw [hw]
  split
  · rename_i hs
    split
    · rename_i hge
      refine ⟨h1, ?_, ?_, fun hc => CircuitState.noConfusion hc, fun _ => ?_⟩
      · show 0 ≤ cb.failures + 1
        omega
      · show cb.failures + 1 ≤ n + 1
        omega
      · show m ≤ cb.failures + 1
        rw [← h1]
        exact hge
    · rename_i hlt
      refine ⟨h1, ?_, ?_, fun _ => ?_, fun hc => absurd hs hc⟩
      · show 0 ≤ cb.failures + 1
        omega
      · show cb.failures + 1 ≤ n + 1
        omega
      · show cb.failures + 1 < m
        rw [← h1]
        exact not_le.mp hlt
  · rename_i hs
    have hge : m ≤ cb.failures := h5 (by rw [hs]; decide)
    refine ⟨h1, ?_, ?_, fun hc => CircuitState.noConfusion hc, fun _ => ?_⟩
    · show 0 ≤ cb.failures + 1
      omega
    · show cb.failures + 1 ≤ n + 1
      omega
    · show m ≤ cb.failures + 1
      omega
  · rename_i hs
    have hge : m ≤ cb.failures := h5 (by rw [hs]; decide)
    refine ⟨h1, ?_, ?_, fun hc => absurd (hs.symm.trans hc) (by decide), fun _ => ?_⟩
    · show 0 ≤ cb.failures + 1
      omega
    · show cb.failures + 1 ≤ n + 1
      omega
    · show m ≤ cb.failures + 1
      omega

theorem failInv_applyCall (m n : Int) (hm : 0 < m) (cb : CircuitBreaker) (c : Call)
    (hn : n < maxInt) (h : FailInv m n cb) : FailInv m (n + 1) (applyCall cb c) := by
  cases c with
  | before now =>
    exact failInv_mono m n (n + 1) _ (failInv_beforeRequest m n cb now h) (by omega)
  | after err now =>
    cases err with
    | none => exact failInv_mono m n (n + 1) _ (failInv_onSuccess m n hm cb h) (by omega)
    | some e => exact failInv_onFailure m n cb now hn h

theorem failInv_applyCalls (m t : Int) (hm : 0 < m) (cs : List Call)
    (hlen : (cs.length : Int) ≤ maxInt) :
    FailInv m cs.length (applyCalls (NewCircuitBreaker m t) cs) := by
  induction cs using List.reverseRecOn with
  | nil => exact ⟨rfl, le_refl _, le_refl _, fun _ => hm, fun hc => absurd rfl hc⟩
  | append_singleton cs c ih =>
    rw [applyCalls_concat]
    simp only [List.length_append, List.length_singleton, Nat.cast_add, Nat.cast_one] at hlen ⊢
    exact failInv_applyCall m cs.length hm _ c (by omega) (ih (by omega))

/-- C17. For `maxFailures = m > 0`, in every state reached from
`NewCircuitBreaker m t` by a sequence of `beforeRequest` and `afterRequest`
calls in any order (fewer than 2^63 of them, so that `failures` has not
wrapped), the state is Closed exactly when `failures < m`: Closed gives
`0 ≤ failures < m`, Open and HalfOpen give `failures ≥ m`. A success recorded
while Open changes nothing, and `beforeRequest` never changes `failures`, the
Open to HalfOpen transition included. -/
theorem failures_below_max_iff_closed (m t : Int) (hm : 0 < m) (cs : List Call)
    (hlen : (cs.length : Int) ≤ maxInt) :
    ((applyCalls (NewCircuitBreaker m t) cs).state = .StateClosed ↔
      (applyCalls (NewCircuitBreaker m t) cs).failures < m) ∧
    ((applyCalls (NewCircuitBreaker m t) cs).state = .StateClosed →
      0 ≤ (applyCalls (NewCircuitBreaker m t) cs).failures ∧
      (applyCalls (NewCircuitBreaker m t) cs).failures < m) ∧
    ((applyCalls (NewCircuitBreaker m t) cs).state = .StateOpen ∨
      (applyCalls (NewCircuitBreaker m t) cs).state = .StateHalfOpen →
      m ≤ (applyCalls (NewCircuitBreaker m t) cs).failures) ∧
    (∀ (cb : CircuitBreaker) (now : Int), cb.state = .StateOpen →
      afterRequest cb none now = cb) ∧
    (∀ (cb : CircuitBreaker) (now : Int),
      (beforeRequest cb now).2.failures = cb.failures) := by
  obtain ⟨-, h2, -, h4, h5⟩ := failInv_applyCalls m t hm cs hlen
  refine ⟨⟨h4, fun hlt => ?_⟩, fun hc => ⟨h2, h4 hc⟩, fun hc => ?_, ?_, ?_⟩
  · by_contra hc
    exact absurd hlt (not_lt.mpr (h5 hc))
  · apply h5
    rcases hc with hc | hc <;> rw [hc] <;> decide
  · intro cb now hs
    simp [afterRequest, onSuccess, hs]
  · intro cb now
    unfold beforeRequest
    split
    · rfl
    · split <;> rfl
    · split <;> rfl

/-- Instance of C17 with `maxFailures = 2`: failure, success, two failures, a
poll past the timeout, one more failure. -/
theorem failures_below_max_iff_closed_witness :
    (0 : Int) < 2 ∧
    (2 : Int) ≤ (applyCalls (NewCircuitBreaker 2 30)
      [.after (some (.other "e")) 0, .after none 1, .after (some (.other "e")) 2,
        .after (some (.other "e")) 3, .before 40, .after (some (.other "e")) 41]).failures :=
  ⟨by decide,
    (failures_below_max_iff_closed 2 30 (by decide)
      [.after (some (.other "e")) 0, .after none 1, .after (some (.other "e")) 2,
        .after (some (.other "e")) 3, .before 40, .after (some (.other "e")) 41]
      (by decide)).2.2.1 (Or.inl (by decide))⟩

/-! ## Metrics snapshot -/

theorem lookup_none_iff_not_registered (r : World) (name : String) :
    r.circuitBreakerManager.breakers.lookup name = none ↔ name ∉ registeredNames r := by
  unfold registeredNames
  rw [List.lookup_eq_none_iff]
  simp only [List.mem_map, not_exists, not_and, bne_iff_ne, ne_eq]
  constructor
  · intro h x hx hc
    exact h x hx hc.symm
  · intro h x hx hc
    exact h x hx hc.symm

theorem GetBreaker_lookup_self (r : World) (name : String) (m t : Int) :
    (GetBreaker r name m t).2.circuitBreakerManager.breakers.lookup name
      = some (GetBreaker r name m t).1 := by
  cases h : r.circuitBreakerManager.breakers.lookup name with
  | some p => rw [GetBreaker_registered r name m t p h]; exact h
  | none =>
    rw [GetBreaker_new r name m t h]
    simp [List.lookup_append, h]

theorem GetBreaker_lookup_preserved (r : World) (name : String) (m t : Int) (n : String)
    (p : Nat) (h : r.circuitBreakerManager.breakers.lookup n = some p) :
    (GetBreaker r name m t).2.circuitBreakerManager.breakers.lookup n = some p := by
  cases hn : r.circuitBreakerManager.breakers.lookup name with
  | some q => rw [GetBreaker_registered r name m t q hn]; exact h
  | none =>
    rw [GetBreaker_new r name m t hn]
    simp [List.lookup_append, h]

theorem getBreakers_length (r : World) (cs : List BreakerRequest) :
    (getBreakers r cs).1.length = cs.length := by
  induction cs generalizing r with
  | nil => rfl
  | cons c cs ih => simp [getBreakers, ih]

/-- Once a name is registered, every later call keeps its entry and gets its
pointer. -/
theorem getBreakers_of_registered (r : World) (cs : List BreakerRequest) (n : String) (p : Nat)
    (h : r.circuitBreakerManager.breakers.lookup n = some p) :
    (getBreakers r cs).2.circuitBreakerManager.breakers.lookup n = some p ∧
    ∀ x ∈ cs.zip (getBreakers r cs).1, x.1.1 = n → x.2 = p := by
  induction cs generalizing r with
  | nil => exact ⟨h, fun x hx => by simp at hx⟩
  | cons c cs ih =>
    have h1 := GetBreaker_lookup_preserved r c.1 c.2.1 c.2.2 n p h
    obtain ⟨ihl, ihz⟩ := ih (GetBreaker r c.1 c.2.1 c.2.2).2 h1
    refine ⟨ihl, ?_⟩
    intro x hx hxn
    simp only [getBreakers, List.zip_cons_cons, List.mem_cons] at hx
    rcases hx with hx | hx
    · subst hx
      dsimp only at hxn ⊢
      have hs := GetBreaker_lookup_self r c.1 c.2.1 c.2.2
      rw [← hxn] at h1
      rw [h1] at hs
      exact (Option.some.inj hs).symm
    · exact ihz x hx hxn

theorem getBreakers_same_name_same_pointer (r : World) (cs : List BreakerRequest) :
    ∀ x ∈ cs.zip (getBreakers r cs).1, ∀ y ∈ cs.zip (getBreakers r cs).1,
      x.1.1 = y.1.1 → x.2 = y.2 := by
  induction cs generalizing r with
  | nil => intro x hx; simp at hx
  | cons c cs ih =>
    have hs := GetBreaker_lookup_self r c.1 c.2.1 c.2.2
    have hreg := (getBreakers_of_registered (GetBreaker r c.1 c.2.1 c.2.2).2 cs c.1 _ hs).2
    intro x hx y hy hxy
    simp only [getBreakers, List.zip_cons_cons, List.mem_cons] at hx hy
    rcases hx with hx | hx <;> rcases hy with hy | hy
    · rw [hx, hy]
    · subst hx
      exact (hreg y hy hxy.symm).symm
    · subst hy
      exact hreg x hx hxy
    · exact ih _ x hx y hy hxy

theorem firstRequests_congr (s1 s2 : List String) (cs : List BreakerRequest)
    (h : ∀ x, x ∈ s1 ↔ x ∈ s2) : firstRequests s1 cs = firstRequests s2 cs := by
  induction cs generalizing s1 s2 with
  | nil => rfl
  | cons c cs ih =>
    unfold firstRequests
    by_cases hc : c.1 ∈ s1
    · rw [if_pos hc, if_pos ((h c.1).mp hc)]
      exact ih s1 s2 h
    · rw [if_neg hc, if_neg (fun hc2 => hc ((h c.1).mpr hc2))]
      rw [ih (c.1 :: s1) (c.1 :: s2) (fun x => by simp [h x])]

theorem firstRequests_not_seen (seen : List String) (cs : List BreakerRequest) :
    ∀ c ∈ firstRequests seen cs, c.1 ∉ seen := by
  induction cs generalizing seen with
  | nil => intro c hc; simp [firstRequests] at hc
  | cons a cs ih =>
    intro c hc
    unfold firstRequests at hc
    by_cases ha : a.1 ∈ seen
    · rw [if_pos ha] at hc
      exact ih seen c hc
    · rw [if_neg ha] at hc
      rcases List.mem_cons.mp hc with hc | hc
      · rw [hc]; exact ha
      · exact fun hcs => ih (a.1 :: seen) c hc (List.mem_cons_of_mem _ hcs)

theorem firstRequests_nodup (seen : List String) (cs : List BreakerRequest) :
    ((firstRequests seen cs).map Prod.fst).Nodup := by
  induction cs generalizing seen with
  | nil => simp [firstRequests]
  | cons a cs ih =>
    unfold firstRequests
    by_cases ha : a.1 ∈ seen
    · rw [if_pos ha]
      exact ih seen
    · rw [if_neg ha, List.map_cons, List.nodup_cons]
      refine ⟨?_, ih (a.1 :: seen)⟩
      intro hmem
      obtain ⟨c, hc, hca⟩ := List.mem_map.mp hmem
      exact firstRequests_not_seen (a.1 :: seen) cs c hc (by rw [hca]; exact List.mem_cons_self _ _)

theorem firstRequests_complete (seen : List String) (cs : List BreakerRequest) :
    ∀ c ∈ cs, c.1 ∈ seen ∨ c.1 ∈ (firstRequests seen cs).map Prod.fst := by
  induction cs generalizing seen with
  | nil => intro c hc; simp at hc
  | cons a cs ih =>
    intro c hc
    unfold firstRequests
    by_cases ha : a.1 ∈ seen
    · rw [if_pos ha]
      rcases List.mem_cons.mp hc with hc | hc
      · rw [hc]; exact Or.inl ha
      · exact ih seen c hc
    · rw [if_neg ha, List.map_cons]
      rcases List.mem_cons.mp hc with hc | hc
      · rw [hc]; exact Or.inr (List.mem_cons_self _ _)
      · rcases ih (a.1 :: seen) c hc with h | h
        · rcases List.mem_cons.mp h with h | h
          · exact Or.inr (by rw [h]; exact List.mem_cons_self _ _)
          · exact Or.inl h
        · exact Or.inr (List.mem_cons_of_mem _ h)

/-- The heap after a sequence of calls: one fresh breaker appended for each
request that is the first for a name not registered before, configured as
that request says. -/
theorem getBreakers_heap (r : World) (cs : List BreakerRequest) :
    (getBreakers r cs).2.heap =
      r.heap ++ (firstRequests (registeredNames r) cs).map
        (fun c => NewCircuitBreaker c.2.1 c.2.2) := by
  induction cs generalizing r with
  | nil => simp [getBreakers, firstRequests]
  | cons c cs ih =>
    simp only [getBreakers]
    rw [ih]
    cases h : r.circuitBreakerManager.breakers.lookup c.1 with
    | some p =>
      have hmem : c.1 ∈ registeredNames r := by
        by_contra hc
        rw [(lookup_none_iff_not_registered r c.1).mpr hc] at h
        exact Option.noConfusion h
      rw [GetBreaker_registered r c.1 c.2.1 c.2.2 p h]
      conv_rhs => unfold firstRequests
      rw [if_pos hmem]
    | none =>
      have hmem : c.1 ∉ registeredNames r := (lookup_none_iff_not_registered r c.1).mp h
      rw [GetBreaker_new r c.1 c.2.1 c.2.2 h]
      conv_rhs => unfold firstRequests
      rw [if_neg hmem]
      dsimp only
      rw [firstRequests_congr _ (c.1 :: registeredNames r) cs (fun x => by
        simp [registeredNames, or_comm])]
      simp

theorem deref_append_left (h ext : Heap) (q : Nat) (hq : q < h.length) :
    deref (h ++ ext) q = deref h q := by
  unfold deref
  rw [List.getD_append _ _ _ _ hq]

theorem getBreakers_replicate_registered (r : World) (name : String) (m t : Int) (p : Nat)
    (h : r.circuitBreakerManager.breakers.lookup name = some p) (k : Nat) :
    getBreakers r (List.replicate k (name, m, t)) = (List.replicate k p, r) := by
  induction k with
  | zero => rfl
  | succ k ih =>
    simp only [List.replicate_succ, getBreakers]
    rw [GetBreaker_registered r name m t p h, ih]

/-- C11. For every registry and every sequence of `GetBreaker` calls made one
after another: calls with the same name return the same pointer; the heap
grows by exactly one fresh breaker for each distinct name not registered
before, built with the `maxFailures` and `resetTimeout` of the first call for
that name, whatever later calls ask for; an entry of the map is never removed
or redirected and a breaker already allocated is never changed. In
particular any number of calls with one new name return one pointer and
construct one breaker. -/
theorem getBreaker_one_instance_per_name (r : World) (cs : List BreakerRequest) :
    (getBreakers r cs).1.length = cs.length ∧
    (∀ x ∈ cs.zip (getBreakers r cs).1, ∀ y ∈ cs.zip (getBreakers r cs).1,
      x.1.1 = y.1.1 → x.2 = y.2) ∧
    (getBreakers r cs).2.heap =
      r.heap ++ (firstRequests (registeredNames r) cs).map
        (fun c => NewCircuitBreaker c.2.1 c.2.2) ∧
    ((firstRequests (registeredNames r) cs).map Prod.fst).Nodup ∧
    (∀ c ∈ firstRequests (registeredNames r) cs, c.1 ∉ registeredNames r) ∧
    (∀ c ∈ cs, c.1 ∈ registeredNames r ∨
      c.1 ∈ (firstRequests (registeredNames r) cs).map Prod.fst) ∧
    (∀ (n : String) (p : Nat), r.circuitBreakerManager.breakers.lookup n = some p →
      (getBreakers r cs).2.circuitBreakerManager.breakers.lookup n = some p ∧
      ∀ x ∈ cs.zip (getBreakers r cs).1, x.1.1 = n → x.2 = p) ∧
    (∀ q : Nat, q < r.heap.length → deref (getBreakers r cs).2.heap q = deref r.heap q) ∧
    (∀ (name : String) (m t : Int), r.circuitBreakerManager.breakers.lookup name = none →
      (getBreakers r ((name, m, t) :: cs)).1.head? = some r.heap.length ∧
      deref (getBreakers r ((name, m, t) :: cs)).2.heap r.heap.length = NewCircuitBreaker m t ∧
      ∀ x ∈ ((name, m, t) :: cs).zip (getBreakers r ((name, m, t) :: cs)).1,
        x.1.1 = name → x.2 = r.heap.length) ∧
    (∀ (name : String) (m t : Int) (k : Nat),
      r.circuitBreakerManager.breakers.lookup name = none →
      getBreakers r (List.replicate (k + 1) (name, m, t)) =
        (List.replicate (k + 1) r.heap.length, (GetBreaker r name m t).2) ∧
      (GetBreaker r name m t).2.heap = r.heap ++ [NewCircuitBreaker m t]) := by
  refine ⟨getBreakers_length r cs, getBreakers_same_name_same_pointer r cs,
    getBreakers_heap r cs, firstRequests_nodup _ cs, firstRequests_not_seen _ cs,
    firstRequests_complete _ cs, fun n p h => getBreakers_of_registered r cs n p h, ?_, ?_, ?_⟩
  · intro q hq
    rw [getBreakers_heap r cs]
    exact deref_append_left _ _ q hq
  · intro name m t h
    have hself := GetBreaker_lookup_self r name m t
    have hnew := GetBreaker_new r name m t h
    have hp : (GetBreaker r name m t).1 = r.heap.length := by rw [hnew]
    have hheap : (GetBreaker r name m t).2.heap = r.heap ++ [NewCircuitBreaker m t] := by
      rw [hnew]
    rw [hp] at hself
    refine ⟨?_, ?_, ?_⟩
    · simp only [getBreakers, List.head?_cons, hp]
    · simp only [getBreakers]
      rw [getBreakers_heap, hheap, deref_append_left _ _ _ (by simp)]
      simp [deref, List.getD]
    · intro x hx hxn
      simp only [getBreakers, List.zip_cons_cons, List.mem_cons] at hx
      rcases hx with hx | hx
      · rw [hx]; exact hp
      · exact (getBreakers_of_registered _ cs name _ hself).2 x hx hxn
  · intro name m t k h
    have hself := GetBreaker_lookup_self r name m t
    have hnew := GetBreaker_new r name m t h
    have hp : (GetBreaker r name m t).1 = r.heap.length := by rw [hnew]
    refine ⟨?_, by rw [hnew]⟩
    simp only [List.replicate_succ, getBreakers]
    rw [getBreakers_replicate_registered _ name m t _ hself k, hp]

/-- Instance of C11: 100 calls for "rabbitmq" on the start-up registry return
one pointer and leave one breaker. -/
theorem getBreaker_one_instance_per_name_witness :
    getBreakers World.init (List.replicate (99 + 1) ("rabbitmq", 5, 30 * Second)) =
        (List.replicate (99 + 1) World.init.heap.length,
          (GetBreaker World.init "rabbitmq" 5 (30 * Second)).2) ∧
    (GetBreaker World.init "rabbitmq" 5 (30 * Second)).2.heap =
      World.init.heap ++ [NewCircuitBreaker 5 (30 * Second)] :=
  (getBreaker_one_instance_per_name World.init []).2.2.2.2.2.2.2.2.2
    "rabbitmq" 5 (30 * Second) 99 rfl

/-! ## The map keeps distinct names -/

theorem registeredNames_nodup_GetBreaker (r : World) (name : String) (m t : Int)
    (h : (registeredNames r).Nodup) : (registeredNames (GetBreaker r name m t).2).Nodup := by
  cases hl : r.circuitBreakerManager.breakers.lookup name with
  | some p => rw [GetBreaker_registered r name m t p hl]; exact h
  | none =>
    have hmem : name ∉ registeredNames r := (lookup_none_iff_not_registered r name).mp hl
    rw [GetBreaker_new r name m t hl]
    unfold registeredNames at h hmem ⊢
    simp only [List.map_append, List.map_cons, List.map_nil]
    rw [List.nodup_append]
    refine ⟨h, List.nodup_singleton _, ?_⟩
    intro x hx hx2
    rw [List.mem_singleton] at hx2
    exact hmem (hx2 ▸ hx)

/-- Every registry built from the start-up state by `GetBreaker` calls has
distinct names. -/
theorem registeredNames_nodup_getBreakers (r : World) (cs : List BreakerRequest)
    (h : (registeredNames r).Nodup) : (registeredNames (getBreakers r cs).2).Nodup := by
  induction cs generalizing r with
  | nil => exact h
  | cons c cs ih => exact ih _ (registeredNames_nodup_GetBreaker r c.1 c.2.1 c.2.2 h)

end Resilience
